import Mathlib

/-!
Verification of the regex → NFA → DFA → MinDFA pipeline of the repository
(shuntingYard.js, thompsonNFA.js, subsetConstruction.js, hopcroft.js,
Automaton.js, State.js).

The JavaScript code mutates a heap of `State` and `Automaton` objects, and
object identity (not the numeric `id` field) is what transitions reference.
We therefore embed it with an explicit heap: two arenas, one for state
objects and one for automaton objects, addressed by allocation index.
JavaScript `Set`s and `Map`s iterate in insertion order; we model them as
duplicate-free lists (`pushNew`) and association lists (`assocSet`) that
preserve exactly this order.  `while` loops are given a fuel parameter.
-/

/-- Insertion-ordered set: JS `Set.add` (no-op when the element is present,
otherwise appended at the end). -/
def pushNew {α : Type} [DecidableEq α] (l : List α) (x : α) : List α :=
  if x ∈ l then l else l ++ [x]

/-- JS `Set.delete`: remove the element, preserving order of the rest. -/
def eraseAll {α : Type} [DecidableEq α] (l : List α) (x : α) : List α :=
  l.filter (fun y => y ≠ x)

/-- Insertion-ordered map lookup: JS `Map.get`. -/
def assocGet {κ ν : Type} [DecidableEq κ] : List (κ × ν) → κ → Option ν
  | [], _ => none
  | (k, v) :: rest, k' => if k = k' then some v else assocGet rest k'

/-- Insertion-ordered map update: JS `Map.set` (value replaced in place when
the key exists, appended at the end otherwise). -/
def assocSet {κ ν : Type} [DecidableEq κ] (m : List (κ × ν)) (k : κ) (v : ν) :
    List (κ × ν) :=
  if m.any (fun p => p.1 = k) then
    m.map (fun p => if p.1 = k then (k, v) else p)
  else m ++ [(k, v)]

/-- Insertion sort step, ascending. -/
def insSorted (x : Nat) : List Nat → List Nat
  | [] => [x]
  | y :: ys => if x ≤ y then x :: y :: ys else y :: insSorted x ys

/-- JS `Array.sort((a,b) => a-b)` on numbers (duplicates kept). -/
def sortNat (l : List Nat) : List Nat := l.foldr insSorted []

/-- The automaton kind tag: `this.type` in `Automaton.js`. -/
inductive AType : Type
  | NFA
  | DFA
  | MinDFA
deriving DecidableEq, Repr, Inhabited

/-- A `State` object of `State.js`: numeric id, accepting flag, a map from
symbol to an insertion-ordered set of target object references, a set of
epsilon-target references, and the `originNFAIds` field stamped by the
subset construction. -/
structure StateObj : Type where
  id : Nat
  isAccepting : Bool
  transitions : List (Char × List Nat)
  epsilonTransitions : List Nat
  originNFAIds : Option (List Nat) := none
deriving DecidableEq, Repr, Inhabited

/-- An `Automaton` object of `Automaton.js`.  `states` maps numeric ids to
state-object references; `acceptStates` holds object references;
`acceptingNFAIds` is the `_acceptingNFAIds` field set by `convertToDFA`. -/
structure AutoObj : Type where
  typ : AType
  states : List (Nat × Nat)
  alphabet : List Char
  startState : Option Nat
  acceptStates : List Nat
  stateCounter : Nat
  acceptingNFAIds : Option (List Nat) := none
deriving DecidableEq, Repr, Inhabited

/-- The object heap: an arena of state objects and an arena of automaton
objects, addressed by allocation index. -/
structure Heap : Type where
  objs : List StateObj
  autos : List AutoObj
deriving DecidableEq, Repr, Inhabited

/-- A reference that is never a live arena index (used where JS would carry
`null`/`undefined` into a data structure; such a reference dereferences to
the inert default object). -/
def deadRef : Nat := 1000000000

def Heap.getObj (h : Heap) (r : Nat) : StateObj := h.objs.getD r default

def Heap.setObj (h : Heap) (r : Nat) (s : StateObj) : Heap :=
  { h with objs := h.objs.set r s }

def Heap.allocObj (h : Heap) (s : StateObj) : Nat × Heap :=
  (h.objs.length, { h with objs := h.objs ++ [s] })

def Heap.getAuto (h : Heap) (a : Nat) : AutoObj := h.autos.getD a default

def Heap.setAuto (h : Heap) (a : Nat) (v : AutoObj) : Heap :=
  { h with autos := h.autos.set a v }

def Heap.allocAuto (h : Heap) (v : AutoObj) : Nat × Heap :=
  (h.autos.length, { h with autos := h.autos ++ [v] })

def emptyHeap : Heap := ⟨[], []⟩

/-- A fresh `new Automaton(type)`. -/
def newAutomaton (typ : AType) : AutoObj :=
  { typ := typ, states := [], alphabet := [], startState := none,
    acceptStates := [], stateCounter := 0, acceptingNFAIds := none }

/-- `State.getTransitions(symbol)`: the target set for a symbol, or the
empty set. -/
def getTransitions (s : StateObj) (c : Char) : List Nat :=
  (assocGet s.transitions c).getD []

/-- `State.addTransition(symbol, target)` for a single target state:
epsilon targets go to the epsilon set, others into the per-symbol set. -/
def stAddTransition (s : StateObj) (c : Char) (t : Nat) : StateObj :=
  if c = 'ε' then
    { s with epsilonTransitions := pushNew s.epsilonTransitions t }
  else
    { s with transitions :=
        match assocGet s.transitions c with
        | some ts => assocSet s.transitions c (pushNew ts t)
        | none => s.transitions ++ [(c, [t])] }

/-- `Automaton.createState(isAccepting)`: allocate a state with the current
counter as id, register it, and record it among the accept states when
accepting.  Returns the new reference. -/
def autoCreateState (h : Heap) (a : Nat) (isAcc : Bool) : Nat × Heap :=
  let au := h.getAuto a
  let (r, h1) := h.allocObj
    { id := au.stateCounter, isAccepting := isAcc, transitions := [],
      epsilonTransitions := [], originNFAIds := none }
  let au1 := { au with
    stateCounter := au.stateCounter + 1,
    states := assocSet au.states au.stateCounter r,
    acceptStates := if isAcc then pushNew au.acceptStates r else au.acceptStates }
  (r, h1.setAuto a au1)

/-- `Automaton.addState(state)`: register an existing state object under its
own id; accepting states are also added to the accept set. -/
def autoAddState (h : Heap) (a : Nat) (r : Nat) : Heap :=
  let au := h.getAuto a
  let o := h.getObj r
  h.setAuto a { au with
    states := assocSet au.states o.id r,
    acceptStates := if o.isAccepting then pushNew au.acceptStates r
                    else au.acceptStates }

/-- `Automaton.addAcceptState(state)`. -/
def autoAddAcceptState (h : Heap) (a : Nat) (r : Nat) : Heap :=
  let h1 := h.setObj r { h.getObj r with isAccepting := true }
  let au := h1.getAuto a
  h1.setAuto a { au with acceptStates := pushNew au.acceptStates r }

/-- `Automaton.setStartState(state)`. -/
def autoSetStart (h : Heap) (a : Nat) (r : Nat) : Heap :=
  h.setAuto a { h.getAuto a with startState := some r }

/-- `Automaton.setStartState` with the (possibly null) start of another
automaton, as in the Thompson combinators. -/
def autoSetStartOpt (h : Heap) (a : Nat) (r : Option Nat) : Heap :=
  h.setAuto a { h.getAuto a with startState := r }

/-- `Automaton.addTransition(from, symbol, to)`: update the source state and
add non-epsilon symbols to the automaton's alphabet. -/
def autoAddTransition (h : Heap) (a : Nat) (f : Nat) (c : Char) (t : Nat) :
    Heap :=
  if c = 'ε' then h.setObj f (stAddTransition (h.getObj f) c t)
  else
    (h.setObj f (stAddTransition (h.getObj f) c t)).setAuto a
      { h.getAuto a with alphabet := pushNew (h.getAuto a).alphabet c }

/-- Worklist body of `Automaton.epsilonClosure`: the JS stack pops from the
end; here the head of `stack` is the top.  Newly discovered states are
appended to the closure in discovery order, exactly as `Set.add` does. -/
def epsClosureLoop (h : Heap) : Nat → List Nat → List Nat → List Nat
  | _, closure, [] => closure
  | 0, closure, _ => closure
  | fuel + 1, closure, cur :: rest =>
    let step := (h.getObj cur).epsilonTransitions.foldl
      (fun (p : List Nat × List Nat) t =>
        if t ∈ p.1 then p else (p.1 ++ [t], t :: p.2))
      (closure, rest)
    epsClosureLoop h fuel step.1 step.2

/-- `Automaton.epsilonClosure(states)` on an insertion-ordered set of state
references. -/
def epsilonClosure (h : Heap) (fuel : Nat) (init : List Nat) : List Nat :=
  epsClosureLoop h fuel init init.reverse

/-- Errors of the pipeline, one constructor per distinct thrown message or
modelled runtime failure. -/
inductive Err : Type
  | parenCloseNoOpen
  | parenOpenNoClose
  | consecutiveBinary (c1 c2 : Char)
  | leadingBinary
  | trailingBinary
  | emptyRegex
  | unbalancedCloseSY
  | unbalancedEndSY
  | invalidSymbol (c : Char)
  | stackUnderflow (c : Char)
  | unknownOperator (c : Char)
  | malformedStack
  | wrongKindDFA
  | wrongKindMin
  | nullDeref
  | fuelOut
deriving DecidableEq, Repr

/-- One record of the simulation step trace. -/
inductive SimAction : Type
  | inicio
  | transicion
  | rechazadaSinTransicion
  | aceptada
  | rechazadaNoFinal
  | inicioClausura
  | transicionClausura
  | rechazadaSinTransiciones
  | rechazadaNingunFinal
deriving DecidableEq, Repr

/-- A step-trace record (`steps` entries of `simulateDFA`/`simulateNFA`). -/
structure SimStep : Type where
  idx : Nat
  states : List Nat
  sym : Option Char
  remaining : List Char
  act : SimAction
deriving DecidableEq, Repr

/-- Result of a simulation: the verdict plus the replayable trace. -/
structure SimRes : Type where
  accepted : Bool
  steps : List SimStep
deriving DecidableEq, Repr

/-- Deterministic walk of `simulateDFA`: at each consumed symbol the code
takes the first element of the target set, rejecting (not erroring) when the
set is empty. -/
def simDFAgo (h : Heap) : Nat → List Char → Nat → List SimStep → SimRes
  | cur, [], i, steps =>
    let acc := (h.getObj cur).isAccepting
    { accepted := acc,
      steps := steps ++ [⟨i, [(h.getObj cur).id], none, [],
        if acc then .aceptada else .rechazadaNoFinal⟩] }
  | cur, c :: rest, i, steps =>
    match getTransitions (h.getObj cur) c with
    | [] =>
      { accepted := false,
        steps := steps ++ [⟨i, [(h.getObj cur).id], some c, rest,
          .rechazadaSinTransicion⟩] }
    | t :: _ =>
      simDFAgo h t rest (i + 1)
        (steps ++ [⟨i, [(h.getObj t).id], some c, rest, .transicion⟩])

/-- `Automaton.simulateDFA(input)`.  A null start state makes the JS code
throw a TypeError while building the step-0 trace record (`currentState.id`
on `null`); that is the `nullDeref` error. -/
def simulateDFA (h : Heap) (a : Nat) (input : List Char) :
    Except Err SimRes :=
  match (h.getAuto a).startState with
  | none => .error .nullDeref
  | some r0 =>
    .ok (simDFAgo h r0 input 1 [⟨0, [(h.getObj r0).id], none, input, .inicio⟩])

/-- `move` of the NFA simulator: union (in iteration order) of the symbol
targets over the current frontier. -/
def moveSet (h : Heap) (frontier : List Nat) (c : Char) : List Nat :=
  frontier.foldl
    (fun acc r => (getTransitions (h.getObj r) c).foldl pushNew acc) []

/-- Frontier walk of `simulateNFA`. -/
def simNFAgo (h : Heap) (fuel : Nat) :
    List Nat → List Char → Nat → List SimStep → SimRes
  | cur, [], i, steps =>
    let acc := cur.any (fun r => (h.getObj r).isAccepting)
    { accepted := acc,
      steps := steps ++ [⟨i, cur.map (fun r => (h.getObj r).id), none, [],
        if acc then .aceptada else .rechazadaNingunFinal⟩] }
  | cur, c :: rest, i, steps =>
    match moveSet h cur c with
    | [] =>
      { accepted := false,
        steps := steps ++ [⟨i, cur.map (fun r => (h.getObj r).id), some c,
          rest, .rechazadaSinTransiciones⟩] }
    | t :: ts =>
      let next := epsilonClosure h fuel (t :: ts)
      simNFAgo h fuel next rest (i + 1)
        (steps ++ [⟨i, next.map (fun r => (h.getObj r).id), some c, rest,
          .transicionClausura⟩])

/-- `Automaton.simulateNFA(input)`; a null start state crashes inside the
initial epsilon closure. -/
def simulateNFA (h : Heap) (a : Nat) (fuel : Nat) (input : List Char) :
    Except Err SimRes :=
  match (h.getAuto a).startState with
  | none => .error .nullDeref
  | some r0 =>
    let cur := epsilonClosure h fuel [r0]
    .ok (simNFAgo h fuel cur input 1
      [⟨0, cur.map (fun r => (h.getObj r).id), none, input, .inicioClausura⟩])

/-- `Automaton.accepts(input)`: dispatch on the kind tag. -/
def accepts (h : Heap) (a : Nat) (fuel : Nat) (input : List Char) :
    Except Err SimRes :=
  if (h.getAuto a).typ = AType.DFA ∨ (h.getAuto a).typ = AType.MinDFA then
    simulateDFA h a input
  else
    simulateNFA h a fuel input

/-- The accepted verdict of a simulation result, `none` on a thrown error. -/
def acceptedOf {α : Type} (f : α → Bool) (e : Except Err α) : Option Bool :=
  match e with
  | .ok r => some (f r)
  | .error _ => none

/-- Verdict projection for `accepts`. -/
def verdict (e : Except Err SimRes) : Option Bool :=
  acceptedOf SimRes.accepted e

/-! ### RegexParser: `shuntingYard.js` -/

/-- The operator precedence table (`this.precedence`). -/
def precedenceOf (c : Char) : Option Nat :=
  if c = '|' then some 1
  else if c = '.' then some 2
  else if c = '+' then some 3
  else if c = '*' then some 3
  else if c = '?' then some 3
  else none

/-- `isOperator(char)`: membership in the precedence table. -/
def isOperator (c : Char) : Bool := (precedenceOf c).isSome

/-- `isOperand(char)`: everything that is neither an operator nor a
parenthesis. -/
def isOperand (c : Char) : Bool := !isOperator c && c ≠ '(' && c ≠ ')'

/-- The binary-operator set of the parser (`this.binaryOperators`). -/
def isBinaryOp (c : Char) : Bool := c = '|' || c = '.'

/-- `hasHigherOrEqualPrecedence(op1, op2)`: strictly higher, or equal and
left-associative (`|` and `.`). -/
def hasHigherOrEqual (op1 op2 : Char) : Bool :=
  let p1 := (precedenceOf op1).getD 0
  let p2 := (precedenceOf op2).getD 0
  p1 > p2 || (p1 = p2 && isBinaryOp op1)

/-- `needsConcatenation(current, next)`. -/
def needsConcatenation (c n : Char) : Bool :=
  if isBinaryOp c || c = '(' then false
  else if isOperator n || n = ')' then false
  else true

/-- Body of `preprocess`: insert an explicit `.` between adjacent tokens that
concatenate. -/
def preprocessGo : List Char → List Char
  | [] => []
  | [c] => [c]
  | c1 :: c2 :: rest =>
    if needsConcatenation c1 c2 then c1 :: '.' :: preprocessGo (c2 :: rest)
    else c1 :: preprocessGo (c2 :: rest)

/-- `preprocess(regex)`: the empty regex becomes the epsilon symbol. -/
def preprocess (l : List Char) : List Char :=
  if l = [] then ['ε'] else preprocessGo l

/-- Pop stack operators of higher-or-equal precedence (they must be
operators: an opening parenthesis stops the popping). -/
def popWhileGE : List Char → Char → List Char × List Char
  | [], _ => ([], [])
  | op :: ops, t =>
    if isOperator op && hasHigherOrEqual op t then
      let (p, s) := popWhileGE ops t
      (op :: p, s)
    else ([], op :: ops)

/-- Pop to the matching `(` on a closing parenthesis; `none` when the stack
runs out. -/
def popToParen : List Char → List Char → Option (List Char × List Char)
  | [], _ => none
  | c :: ops, acc =>
    if c = '(' then some (acc, ops) else popToParen ops (acc ++ [c])

/-- Drain the operator stack at end of input; a leftover parenthesis is an
unbalanced-parenthesis error. -/
def syFlush : List Char → List Char → Except Err (List Char)
  | [], out => .ok out
  | c :: ops, out =>
    if c = '(' || c = ')' then .error .unbalancedEndSY
    else syFlush ops (out ++ [c])

/-- The token dispatch loop of `shuntingYard(expression)`; the head of
`stk` is the top of the operator stack. -/
def syGo : List Char → List Char → List Char → Except Err (List Char)
  | [], out, stk => syFlush stk out
  | t :: rest, out, stk =>
    if isOperand t then syGo rest (out ++ [t]) stk
    else if isOperator t then
      let (popped, stk') := popWhileGE stk t
      syGo rest (out ++ popped) (t :: stk')
    else if t = '(' then syGo rest out (t :: stk)
    else if t = ')' then
      match popToParen stk [] with
      | none => .error .unbalancedCloseSY
      | some (popped, stk') => syGo rest (out ++ popped) stk'
    else .error (.invalidSymbol t)

/-- `shuntingYard(expression)`. -/
def shuntingYardAlg (expr : List Char) : Except Err (List Char) :=
  syGo expr [] []

/-- Parenthesis scan of `validate`: an early close reports immediately (and
the dangling-open check is skipped because the count stays negative). -/
def validateParens : List Char → Nat → List Err
  | [], bal => if bal > 0 then [.parenOpenNoClose] else []
  | c :: rest, bal =>
    if c = '(' then validateParens rest (bal + 1)
    else if c = ')' then
      match bal with
      | 0 => [.parenCloseNoOpen]
      | b + 1 => validateParens rest b
    else validateParens rest bal

/-- Consecutive-binary-operator scan of `validate`. -/
def validateConsec : List Char → List Err
  | [] => []
  | [_] => []
  | c1 :: c2 :: rest =>
    (if isBinaryOp c1 && isBinaryOp c2 then [.consecutiveBinary c1 c2] else [])
      ++ validateConsec (c2 :: rest)

/-- `validate(regex)`: the collected error list (valid iff empty). -/
def validate (l : List Char) : List Err :=
  validateParens l 0 ++ validateConsec l
    ++ (match l with
        | [] => []
        | c :: _ => if isBinaryOp c then [Err.leadingBinary] else [])
    ++ (match l.getLast? with
        | none => []
        | some c => if isBinaryOp c then [Err.trailingBinary] else [])

/-- The record returned by `ShuntingYard.convert`. -/
structure ConvertRes : Type where
  success : Bool
  rpn : Option (List Char)
  errors : List Err
deriving DecidableEq, Repr

/-- `convert(regex)`: validate, then convert; a thrown conversion error is
caught and reported.  (The `steps` field recomputes the same conversion and
cannot change the outcome; it is not modelled.) -/
def convert (l : List Char) : ConvertRes :=
  match validate l with
  | [] =>
    match shuntingYardAlg (preprocess l) with
    | .ok p => { success := true, rpn := some p, errors := [] }
    | .error e => { success := false, rpn := none, errors := [e] }
  | e :: es => { success := false, rpn := none, errors := e :: es }

/-! ### NFABuilder: `thompsonNFA.js` -/

/-- `ThompsonNFA.isOperator`. -/
def thIsOperator (c : Char) : Bool :=
  c = '*' || c = '+' || c = '?' || c = '|' || c = '.'

/-- `basicSymbol(symbol)`: a fresh two-state automaton; the epsilon symbol
gets an epsilon transition, anything else a labelled one. -/
def basicSymbol (h : Heap) (c : Char) : Heap × Nat :=
  let a := (h.allocAuto (newAutomaton .NFA)).1
  let h1 := (h.allocAuto (newAutomaton .NFA)).2
  let s := (autoCreateState h1 a false).1
  let h2 := (autoCreateState h1 a false).2
  let t := (autoCreateState h2 a true).1
  let h3 := (autoCreateState h2 a true).2
  let h4 := autoSetStart h3 a s
  -- the source branches on the epsilon symbol, but both branches call
  -- addTransition with the very same symbol value, so they coincide
  (autoAddTransition h4 a s c t, a)

/-- `copyStatesAndTransitions(source, target)`: registering each source
state unless the target already has a state with the same id, then merging
the alphabets.  (Transitions live inside the shared state objects.) -/
def copyStatesAndTransitions (h : Heap) (src tgt : Nat) : Heap :=
  let h1 := (h.getAuto src).states.foldl
    (fun h (p : Nat × Nat) =>
      if (assocGet (h.getAuto tgt).states (h.getObj p.2).id).isSome then h
      else autoAddState h tgt p.2)
    h
  (h1.getAuto src).alphabet.foldl
    (fun h c =>
      h.setAuto tgt { h.getAuto tgt with
        alphabet := pushNew (h.getAuto tgt).alphabet c })
    h1

/-- Demote one accept state: clear its flag, drop it from the result's
accept set, then run extra epsilon wiring. -/
def demoteAccept (h : Heap) (res : Nat) (r : Nat) (targets : List Nat) :
    Heap :=
  let h1 := h.setObj r { h.getObj r with isAccepting := false }
  let au := h1.getAuto res
  let h2 := h1.setAuto res { au with acceptStates := eraseAll au.acceptStates r }
  targets.foldl (fun h t => autoAddTransition h res r 'ε' t) h2

/-- `concatenation(nfa1, nfa2)`. -/
def concatenation (h : Heap) (a1 a2 : Nat) : Heap × Nat :=
  let (res, h1) := h.allocAuto (newAutomaton .NFA)
  let h2 := copyStatesAndTransitions h1 a1 res
  let h3 := copyStatesAndTransitions h2 a2 res
  let h4 := autoSetStartOpt h3 res (h3.getAuto a1).startState
  let s2 := (h4.getAuto a2).startState.getD deadRef
  let h5 := (h4.getAuto a1).acceptStates.foldl
    (fun h r => demoteAccept h res r [s2]) h4
  let h6 := (h5.getAuto a2).acceptStates.foldl
    (fun h r => autoAddAcceptState h res r) h5
  (h6, res)

/-- `alternation(nfa1, nfa2)`. -/
def alternation (h : Heap) (a1 a2 : Nat) : Heap × Nat :=
  let (res, h1) := h.allocAuto (newAutomaton .NFA)
  let (ns, h2) := autoCreateState h1 res false
  let (na, h3) := autoCreateState h2 res true
  let h4 := autoSetStart h3 res ns
  let h5 := copyStatesAndTransitions h4 a1 res
  let h6 := copyStatesAndTransitions h5 a2 res
  let h7 := autoAddTransition h6 res ns 'ε' ((h6.getAuto a1).startState.getD deadRef)
  let h8 := autoAddTransition h7 res ns 'ε' ((h7.getAuto a2).startState.getD deadRef)
  let h9 := (h8.getAuto a1).acceptStates.foldl
    (fun h r => demoteAccept h res r [na]) h8
  let h10 := (h9.getAuto a2).acceptStates.foldl
    (fun h r => demoteAccept h res r [na]) h9
  (h10, res)

/-- `kleeneStar(nfa)`. -/
def kleeneStar (h : Heap) (a1 : Nat) : Heap × Nat :=
  let (res, h1) := h.allocAuto (newAutomaton .NFA)
  let (ns, h2) := autoCreateState h1 res false
  let (na, h3) := autoCreateState h2 res true
  let h4 := autoSetStart h3 res ns
  let h5 := copyStatesAndTransitions h4 a1 res
  let st := (h5.getAuto a1).startState.getD deadRef
  let h6 := autoAddTransition h5 res ns 'ε' st
  let h7 := autoAddTransition h6 res ns 'ε' na
  let h8 := (h7.getAuto a1).acceptStates.foldl
    (fun h r => demoteAccept h res r [na, st]) h7
  (h8, res)

/-- `oneOrMore(nfa)`: only a new accept state; the original start is kept. -/
def oneOrMore (h : Heap) (a1 : Nat) : Heap × Nat :=
  let (res, h1) := h.allocAuto (newAutomaton .NFA)
  let (na, h2) := autoCreateState h1 res true
  let h3 := copyStatesAndTransitions h2 a1 res
  let h4 := autoSetStartOpt h3 res (h3.getAuto a1).startState
  let st := (h4.getAuto a1).startState.getD deadRef
  let h5 := (h4.getAuto a1).acceptStates.foldl
    (fun h r => demoteAccept h res r [na, st]) h4
  (h5, res)

/-- `optional(nfa)`. -/
def optionalOp (h : Heap) (a1 : Nat) : Heap × Nat :=
  let (res, h1) := h.allocAuto (newAutomaton .NFA)
  let (ns, h2) := autoCreateState h1 res false
  let (na, h3) := autoCreateState h2 res true
  let h4 := autoSetStart h3 res ns
  let h5 := copyStatesAndTransitions h4 a1 res
  let h6 := autoAddTransition h5 res ns 'ε' ((h5.getAuto a1).startState.getD deadRef)
  let h7 := autoAddTransition h6 res ns 'ε' na
  let h8 := (h7.getAuto a1).acceptStates.foldl
    (fun h r => demoteAccept h res r [na]) h7
  (h8, res)

/-- One token step of `buildNFA(postfixRegex)`: operators pop their
operands (head of the list is the top of the stack), anything else pushes a
basic-symbol fragment. -/
def buildNFAstep (h : Heap) (c : Char) (stk : List Nat) :
    Except Err (Heap × List Nat) :=
  if thIsOperator c then
    if c = '*' then
      match stk with
      | [] => .error (.stackUnderflow c)
      | a :: s => .ok ((kleeneStar h a).1, (kleeneStar h a).2 :: s)
    else if c = '+' then
      match stk with
      | [] => .error (.stackUnderflow c)
      | a :: s => .ok ((oneOrMore h a).1, (oneOrMore h a).2 :: s)
    else if c = '?' then
      match stk with
      | [] => .error (.stackUnderflow c)
      | a :: s => .ok ((optionalOp h a).1, (optionalOp h a).2 :: s)
    else if c = '|' then
      match stk with
      | right :: left :: s =>
        .ok ((alternation h left right).1, (alternation h left right).2 :: s)
      | _ => .error (.stackUnderflow c)
    else if c = '.' then
      match stk with
      | second :: first :: s =>
        .ok ((concatenation h first second).1,
          (concatenation h first second).2 :: s)
      | _ => .error (.stackUnderflow c)
    else .error (.unknownOperator c)
  else .ok ((basicSymbol h c).1, (basicSymbol h c).2 :: stk)

/-- The fragment-stack loop of `buildNFA(postfixRegex)`. -/
def buildNFAgo : Heap → List Char → List Nat → Except Err (Heap × Nat)
  | h, [], [a] => .ok (h, a)
  | _, [], _ => .error .malformedStack
  | h, c :: rest, stk =>
    match buildNFAstep h c stk with
    | .error e => .error e
    | .ok (h1, stk1) => buildNFAgo h1 rest stk1

/-- `buildNFA(postfixRegex)`: exactly one fragment must remain. -/
def buildNFA (h : Heap) (rpn : List Char) : Except Err (Heap × Nat) :=
  buildNFAgo h rpn []

/-! ### Determinizer: `subsetConstruction.js` -/

/-- `stateSetToString`: the canonical key of a set of NFA states is the
sorted sequence of their numeric ids (duplicates kept, as the JS sort keeps
them). -/
def stateSetKey (h : Heap) (s : List Nat) : List Nat :=
  sortNat (s.map (fun r => (h.getObj r).id))

/-- `isAcceptingSetFrom`: some member's id lies in the NFA accept-id set. -/
def isAcceptingSetFrom (h : Heap) (s : List Nat) (accIds : List Nat) : Bool :=
  s.any (fun r => (h.getObj r).id ∈ accIds)

/-- `getOrCreateDFAState`: look the canonical key up, or create a DFA state
(accepting iff the set meets the NFA accept ids) and stamp its origin ids.
`keyMap` is the `stateSetToId` map. -/
def getOrCreateDFAState (h : Heap) (dfa : Nat) (s : List Nat)
    (accIds : List Nat) (keyMap : List (List Nat × Nat)) :
    Nat × Heap × List (List Nat × Nat) :=
  let key := stateSetKey h s
  match assocGet keyMap key with
  | some id => ((assocGet (h.getAuto dfa).states id).getD deadRef, h, keyMap)
  | none =>
    let isAcc := isAcceptingSetFrom h s accIds
    let r := (autoCreateState h dfa isAcc).1
    let h1 := (autoCreateState h dfa isAcc).2
    let h2 := h1.setObj r { h1.getObj r with originNFAIds := some key }
    (r, h2, keyMap ++ [(key, (h1.getObj r).id)])

/-- Per-symbol body of the subset-construction BFS: `move`, epsilon
closure, state lookup/creation, edge insertion, worklist update. -/
def scSymStep (dfa : Nat) (accIds : List Nat) (fuel : Nat)
    (cur : List Nat) (fromRef : Nat)
    (st : Heap × List (List Nat × Nat) × List (List Nat) × List (List Nat))
    (c : Char) :
    Heap × List (List Nat × Nat) × List (List Nat) × List (List Nat) :=
  match moveSet st.1 cur c with
  | [] => st
  | m :: ms =>
    let ns := epsilonClosure st.1 fuel (m :: ms)
    let toRef := (getOrCreateDFAState st.1 dfa ns accIds st.2.1).1
    let h1 := (getOrCreateDFAState st.1 dfa ns accIds st.2.1).2.1
    let keyMap1 := (getOrCreateDFAState st.1 dfa ns accIds st.2.1).2.2
    let h2 := autoAddTransition h1 dfa fromRef c toRef
    let key := stateSetKey h2 ns
    if key ∈ st.2.2.1 then (h2, keyMap1, st.2.2.1, st.2.2.2)
    else (h2, keyMap1, st.2.2.1 ++ [key], st.2.2.2 ++ [ns])

/-- The BFS worklist loop of `convertToDFA`; `nfaSrc` names the source
automaton only for documentation (its states are read through the heap). -/
def scLoop (nfaSrc dfa : Nat) (accIds : List Nat) (alpha : List Char) :
    Nat → Heap → List (List Nat × Nat) → List (List Nat) →
    List (List Nat) → Except Err (Heap × Nat)
  | _, h, _, _, [] =>
    let au := h.getAuto dfa
    .ok (h.setAuto dfa { au with acceptingNFAIds := some accIds }, dfa)
  | 0, _, _, _, _ :: _ => .error .fuelOut
  | fuel + 1, h, keyMap, seen, cur :: pending =>
    let fromId := (assocGet keyMap (stateSetKey h cur)).getD deadRef
    let fromRef := (assocGet (h.getAuto dfa).states fromId).getD deadRef
    let st := alpha.foldl (scSymStep dfa accIds fuel cur fromRef)
      (h, keyMap, seen, pending)
    scLoop nfaSrc dfa accIds alpha fuel st.1 st.2.1 st.2.2.1 st.2.2.2

/-- `SubsetConstruction.convertToDFA(nfa)` (the version the pipeline
imports).  A non-NFA kind tag is rejected; a null start state crashes inside
the initial epsilon closure. -/
def convertToDFA (h : Heap) (a : Nat) (fuel : Nat) :
    Except Err (Heap × Nat) :=
  let au := h.getAuto a
  if au.typ ≠ AType.NFA then .error .wrongKindDFA
  else
    match au.startState with
    | none => .error .nullDeref
    | some s0 =>
      let accIds := au.acceptStates.foldl
        (fun l r => pushNew l (h.getObj r).id) []
      let alpha := au.alphabet
      let dfa := (h.allocAuto (newAutomaton .DFA)).1
      let h1 := (h.allocAuto (newAutomaton .DFA)).2
      let ic := epsilonClosure h1 fuel [s0]
      let q0 := (getOrCreateDFAState h1 dfa ic accIds []).1
      let h2 := (getOrCreateDFAState h1 dfa ic accIds []).2.1
      let keyMap := (getOrCreateDFAState h1 dfa ic accIds []).2.2
      let h3 := autoSetStart h2 dfa q0
      scLoop a dfa accIds alpha fuel h3 keyMap [stateSetKey h3 ic] [ic]

/-! ### Minimizer: `hopcroft.js` (HopcroftMinimization) -/

/-- The clone `new State(old.id, old.isAccepting)` made by
`removeUnreachableStates`. -/
def cloneOf (o : StateObj) : StateObj :=
  { id := o.id, isAccepting := o.isAccepting, transitions := [],
    epsilonTransitions := [], originNFAIds := none }

/-- Per-state body of the first copy loop of `removeUnreachableStates`:
allocate the clone, register it in the fresh DFA `nd`, set the start state
when the original is the start `s0`, and extend the old→new mapping. -/
def cloneReachStep (nd s0 : Nat) (p : Heap × List (Nat × Nat)) (old : Nat) :
    Heap × List (Nat × Nat) :=
  (if old = s0 then
     autoSetStart
       (autoAddState (p.1.allocObj (cloneOf (p.1.getObj old))).2 nd
         (p.1.allocObj (cloneOf (p.1.getObj old))).1) nd
       (p.1.allocObj (cloneOf (p.1.getObj old))).1
   else
     autoAddState (p.1.allocObj (cloneOf (p.1.getObj old))).2 nd
       (p.1.allocObj (cloneOf (p.1.getObj old))).1,
   p.2 ++ [(old, (p.1.allocObj (cloneOf (p.1.getObj old))).1)])

/-- Per-state body of the transition copy loop of
`removeUnreachableStates`: re-add every transition whose target stayed
reachable, through the old→new mapping `mp`. -/
def copyTransStep (nd : Nat) (mp : List (Nat × Nat)) (reach : List Nat)
    (hh : Heap) (old : Nat) : Heap :=
  (hh.getObj old).transitions.foldl
    (fun hh (e : Char × List Nat) =>
      e.2.foldl
        (fun hh t =>
          if t ∈ reach then
            autoAddTransition hh nd ((assocGet mp old).getD deadRef) e.1
              ((assocGet mp t).getD deadRef)
          else hh)
        hh)
    hh

/-- The heap after creating one MinDFA block state and overwriting its id
with the block index (`newState.id = index`). -/
def minStateCore (mr : Nat) (acc : Heap × List (Nat × Nat))
    (pi : Nat × List Nat) : Heap :=
  ((autoCreateState acc.1 mr
      (pi.2.any (fun r => (acc.1.getObj r).isAccepting))).2).setObj
    ((autoCreateState acc.1 mr
      (pi.2.any (fun r => (acc.1.getObj r).isAccepting))).1)
    { ((autoCreateState acc.1 mr
        (pi.2.any (fun r => (acc.1.getObj r).isAccepting))).2).getObj
        ((autoCreateState acc.1 mr
          (pi.2.any (fun r => (acc.1.getObj r).isAccepting))).1) with
      id := pi.1 }

/-- The reference of the MinDFA state created for one block. -/
def minStateRef (mr : Nat) (acc : Heap × List (Nat × Nat))
    (pi : Nat × List Nat) : Nat :=
  (autoCreateState acc.1 mr
    (pi.2.any (fun r => (acc.1.getObj r).isAccepting))).1

/-- Per-block body of the state-creation loop of `buildMinimalDFA`. -/
def minStateStep (mr d : Nat) (acc : Heap × List (Nat × Nat))
    (pi : Nat × List Nat) : Heap × List (Nat × Nat) :=
  (match ((minStateCore mr acc pi).getAuto d).startState with
   | some s =>
     if s ∈ pi.2 then
       autoSetStart (minStateCore mr acc pi) mr (minStateRef mr acc pi)
     else minStateCore mr acc pi
   | none => minStateCore mr acc pi,
   acc.2 ++ [(pi.1, minStateRef mr acc pi)])

/-- Per-block body of the transition loop of `buildMinimalDFA`: the
representative is the block's first member; its target is resolved through
the final partition map `stp` and the block→state map `p2s`. -/
def minTransStep (mr d : Nat) (stp p2s : List (Nat × Nat)) (hh : Heap)
    (pi : Nat × List Nat) : Heap :=
  (hh.getAuto d).alphabet.foldl
    (fun hh c =>
      match getTransitions (hh.getObj (pi.2.headD deadRef)) c with
      | [] => hh
      | t :: _ =>
        autoAddTransition hh mr ((assocGet p2s pi.1).getD deadRef) c
          ((assocGet p2s ((assocGet stp t).getD deadRef)).getD deadRef))
    hh

/-- BFS of `removeUnreachableStates`: follow the symbol transitions (the
epsilon sets are not traversed), collecting states in discovery order. -/
def bfsReach (h : Heap) : Nat → List Nat → List Nat → List Nat
  | _, [], reach => reach
  | 0, _, reach => reach
  | fuel + 1, cur :: queue, reach =>
    let step := (h.getObj cur).transitions.foldl
      (fun (p : List Nat × List Nat) (e : Char × List Nat) =>
        e.2.foldl
          (fun (p : List Nat × List Nat) t =>
            if t ∈ p.1 then p else (p.1 ++ [t], p.2 ++ [t]))
          p)
      (reach, [])
    bfsReach h fuel (queue ++ step.2) step.1

/-- `removeUnreachableStates(dfa)`: when every registered state is reachable
the ORIGINAL automaton object is returned; otherwise a fresh DFA is built
from clones of the reachable states (keeping ids, dropping epsilon edges). -/
def removeUnreachableStates (h : Heap) (a : Nat) (fuel : Nat) :
    Except Err (Heap × Nat) :=
  match (h.getAuto a).startState with
  | none => .error .nullDeref
  | some s0 =>
    let reach := bfsReach h fuel [s0] [s0]
    if reach.length = (h.getAuto a).states.length then .ok (h, a)
    else
      let nd := (h.allocAuto (newAutomaton .DFA)).1
      let h1 := (h.allocAuto (newAutomaton .DFA)).2
      let step := reach.foldl (cloneReachStep nd s0) (h1, ([] : List (Nat × Nat)))
      let h5 := reach.foldl (copyTransStep nd step.2 reach) step.1
      .ok (h5, nd)

/-- `initializePartitions(dfa)`: the non-accepting block (when nonempty)
then the accepting block (when nonempty), plus the seeded worklist of every
(partition index, symbol) pair. -/
def initPartitions (h : Heap) (d : Nat) :
    List (List Nat) × List (Nat × Char) :=
  let vals := (h.getAuto d).states.map (fun p => p.2)
  let accs := vals.filter (fun r => (h.getObj r).isAccepting)
  let nons := vals.filter (fun r => !(h.getObj r).isAccepting)
  let parts := (if nons ≠ [] then [nons] else [])
    ++ (if accs ≠ [] then [accs] else [])
  let wl := (List.range parts.length).foldl
    (fun l i => l ++ (h.getAuto d).alphabet.map (fun c => (i, c))) []
  (parts, wl)

/-- The state→partition-index map (`this.stateToPartition`), rebuilt from
scratch after each split. -/
def stpOf (parts : List (List Nat)) : List (Nat × Nat) :=
  (parts.enum.map (fun (p : Nat × List Nat) =>
    p.2.map (fun r => (r, p.1)))).flatten

/-- `split(dfa, splitter, symbol)`: divide every block other than the
splitter itself into members whose symbol-successor meets the splitter and
the rest; on a real split, push worklist entries whose indices are computed
against the OLD partition count plus the position in the new array — the
stale-length arithmetic of the source. -/
def splitStep (h : Heap) (d : Nat) (parts : List (List Nat)) (spIdx : Nat)
    (splitter : List Nat) (c : Char) :
    List (List Nat) × List (Nat × Char) :=
  let res := parts.enum.foldl
    (fun (acc : List (List Nat) × List (Nat × Char))
        (pi : Nat × List Nat) =>
      if pi.1 = spIdx then (acc.1 ++ [pi.2], acc.2)
      else
        let goes := pi.2.filter
          (fun r => (getTransitions (h.getObj r) c).any (fun t => t ∈ splitter))
        let notGoes := pi.2.filter
          (fun r => !(getTransitions (h.getObj r) c).any (fun t => t ∈ splitter))
        if goes ≠ [] ∧ notGoes ≠ [] then
          let newParts := acc.1 ++ [goes, notGoes]
          let wlAdd := (h.getAuto d).alphabet.foldl
            (fun l sym =>
              l ++ [(parts.length + newParts.length - 2, sym),
                    (parts.length + newParts.length - 1, sym)])
            []
          (newParts, acc.2 ++ wlAdd)
        else (acc.1 ++ [pi.2], acc.2))
    ([], [])
  res

/-- `refinePartitions(dfa)`: drain the worklist; an index at or beyond the
current partition count is skipped. -/
def refineParts (h : Heap) (d : Nat) :
    Nat → List (Nat × Char) → List (List Nat) →
    List (List Nat) × List (Nat × Nat)
  | _, [], parts => (parts, stpOf parts)
  | 0, _, parts => (parts, stpOf parts)
  | fuel + 1, (i, c) :: rest, parts =>
    if i ≥ parts.length then refineParts h d fuel rest parts
    else
      let splitter := parts.getD i []
      let (parts1, wlAdd) := splitStep h d parts i splitter c
      refineParts h d fuel (rest ++ wlAdd) parts1

/-- `buildMinimalDFA(dfa)`: one MinDFA state per final block (accepting iff
a member is), start at the block holding the original start, and one edge
per (block, symbol) through an arbitrary representative evaluated against
the final partition map. -/
def buildMinimalDFA (h : Heap) (d : Nat) (parts : List (List Nat))
    (stp : List (Nat × Nat)) : Heap × Nat :=
  let mr := (h.allocAuto (newAutomaton .MinDFA)).1
  let h1 := (h.allocAuto (newAutomaton .MinDFA)).2
  let step := parts.enum.foldl (minStateStep mr d) (h1, ([] : List (Nat × Nat)))
  let h5 := parts.enum.foldl (minTransStep mr d stp step.2) step.1
  (h5, mr)

/-- `HopcroftMinimization.minimize(dfa)`.  Besides the result automaton the
model also returns the final partitions and state→partition map, which the
JS object keeps in its fields after the call.  An (all-reachable) input of
at most one state is retagged `MinDFA` and returned AS IS. -/
def minimize (h : Heap) (a : Nat) (fuel : Nat) :
    Except Err (Heap × Nat × List (List Nat) × List (Nat × Nat)) :=
  if (h.getAuto a).typ ≠ AType.DFA then .error .wrongKindMin
  else
    match removeUnreachableStates h a fuel with
    | .error e => .error e
    | .ok (h1, rd) =>
      if (h1.getAuto rd).states.length ≤ 1 then
        .ok (h1.setAuto rd { h1.getAuto rd with typ := .MinDFA }, rd, [], [])
      else
        let parts1 :=
          (refineParts h1 rd fuel (initPartitions h1 rd).2
            (initPartitions h1 rd).1).1
        let stp1 :=
          (refineParts h1 rd fuel (initPartitions h1 rd).2
            (initPartitions h1 rd).1).2
        .ok ((buildMinimalDFA h1 rd parts1 stp1).1,
          (buildMinimalDFA h1 rd parts1 stp1).2, parts1, stp1)

/-! ### The full pipeline (`regex → postfix → NFA → DFA → MinDFA`) -/

/-- The four-stage pipeline of the repository's driver: `convert`,
`buildNFA`, `convertToDFA`, `minimize`, returning the final heap and the
references of the three automatons. -/
def pipeAll (regex : List Char) (fuel : Nat) :
    Except Err (Heap × Nat × Nat × Nat) :=
  match (convert regex).rpn with
  | none => .error .emptyRegex
  | some p =>
    match buildNFA emptyHeap p with
    | .error e => .error e
    | .ok (h1, n) =>
      match convertToDFA h1 n fuel with
      | .error e => .error e
      | .ok (h2, d) =>
        match minimize h2 d fuel with
        | .error e => .error e
        | .ok (h3, m, _, _) => .ok (h3, n, d, m)

/-- Verdict of the pipeline NFA on an input string. -/
def nfaVerdict (regex : List Char) (fuel : Nat) (w : List Char) :
    Option Bool :=
  match pipeAll regex fuel with
  | .ok (h, n, _, _) => verdict (accepts h n fuel w)
  | .error _ => none

/-- Verdict of the pipeline DFA on an input string. -/
def dfaVerdict (regex : List Char) (fuel : Nat) (w : List Char) :
    Option Bool :=
  match pipeAll regex fuel with
  | .ok (h, _, d, _) => verdict (accepts h d fuel w)
  | .error _ => none

/-- Verdict of the pipeline MinDFA on an input string. -/
def minVerdict (regex : List Char) (fuel : Nat) (w : List Char) :
    Option Bool :=
  match pipeAll regex fuel with
  | .ok (h, _, _, m) => verdict (accepts h m fuel w)
  | .error _ => none

/-! ### Specification-side definitions used by the claims -/

/-- Specification-side deterministic step: the target on a symbol when the
state has exactly one, `none` otherwise. -/
def dfaStep (h : Heap) (q : Nat) (c : Char) : Option Nat :=
  match assocGet (h.getObj q).transitions c with
  | some [t] => some t
  | _ => none

/-- Specification-side deterministic walk; `none` means the walk got stuck. -/
def dfaWalk (h : Heap) : Nat → List Char → Option Nat
  | q, [] => some q
  | q, c :: rest =>
    match dfaStep h q c with
    | none => none
    | some t => dfaWalk h t rest

/-- The DFA determinism invariant: every per-symbol target set of every
live state object has at most one element. -/
def DetHeap (h : Heap) : Prop :=
  ∀ r, r < h.objs.length → ∀ e ∈ (h.getObj r).transitions, e.2.length ≤ 1

instance : DecidablePred DetHeap := fun h => by
  unfold DetHeap; infer_instance

/-- All states reachable from a set of references following both symbol and
epsilon transitions (breadth first, discovery order). -/
def reachAll (h : Heap) : Nat → List Nat → List Nat → List Nat
  | _, [], reach => reach
  | 0, _, reach => reach
  | fuel + 1, cur :: queue, reach =>
    let o := h.getObj cur
    let targets := (o.transitions.map (fun e => e.2)).flatten
      ++ o.epsilonTransitions
    let step := targets.foldl
      (fun (p : List Nat × List Nat) t =>
        if t ∈ p.1 then p else (p.1 ++ [t], p.2 ++ [t]))
      (reach, [])
    reachAll h fuel (queue ++ step.2) step.1

/-- Heap entries that existed before a stage still hold the same objects
after it. -/
def heapPreservedFrom (h0 h : Heap) : Prop :=
  (∀ i, i < h0.objs.length → h.objs[i]? = h0.objs[i]?) ∧
  (∀ j, j < h0.autos.length → h.autos[j]? = h0.autos[j]?)

/-- Frame property of the determinizer: on success nothing pre-existing was
mutated and the result automaton is freshly allocated. -/
def dfaFreshFrame (h0 : Heap) (r : Except Err (Heap × Nat)) : Prop :=
  match r with
  | .error _ => True
  | .ok (h, d) => heapPreservedFrom h0 h ∧ h0.autos.length ≤ d

/-- Frame property of the minimizer: on success, either nothing pre-existing
was mutated and the result is fresh, or the input had at most one state and
was itself retagged `MinDFA` and returned. -/
def minFrame (h0 : Heap) (a : Nat)
    (r : Except Err (Heap × Nat × List (List Nat) × List (Nat × Nat))) :
    Prop :=
  match r with
  | .error _ => True
  | .ok (h, m, _, _) =>
    (heapPreservedFrom h0 h ∧ h0.autos.length ≤ m) ∨
    (m = a ∧ (h0.getAuto a).states.length ≤ 1 ∧ h.objs = h0.objs ∧
      h.autos = h0.autos.set a { h0.getAuto a with typ := AType.MinDFA })

/-- Result-automaton reference of a `minimize` call. -/
def minRefOf (r : Except Err (Heap × Nat × List (List Nat) × List (Nat × Nat))) :
    Nat :=
  match r with
  | .ok (_, m, _, _) => m
  | .error _ => deadRef

/-- Result heap of a `minimize` call (the input heap on error). -/
def minHeapOf (h0 : Heap)
    (r : Except Err (Heap × Nat × List (List Nat) × List (Nat × Nat))) :
    Heap :=
  match r with
  | .ok (h, _, _, _) => h
  | .error _ => h0

/-- Final partitions of a `minimize` call. -/
def minPartsOf
    (r : Except Err (Heap × Nat × List (List Nat) × List (Nat × Nat))) :
    List (List Nat) :=
  match r with
  | .ok (_, _, p, _) => p
  | .error _ => []

/-- Final state→partition map of a `minimize` call. -/
def minStpOf
    (r : Except Err (Heap × Nat × List (List Nat) × List (Nat × Nat))) :
    List (Nat × Nat) :=
  match r with
  | .ok (_, _, _, s) => s
  | .error _ => []

/-- Result heap of a `buildNFA` call (the input heap on error). -/
def nfaHeapOf (h0 : Heap) (r : Except Err (Heap × Nat)) : Heap :=
  match r with
  | .ok (h, _) => h
  | .error _ => h0

/-- Result reference of a `buildNFA`/`convertToDFA` call. -/
def refOf (r : Except Err (Heap × Nat)) : Nat :=
  match r with
  | .ok (_, a) => a
  | .error _ => deadRef

/-- A four-state chain DFA accepting exactly "aaa": ids 0→1→2→3 on 'a',
state 3 accepting.  Used as a concrete minimizer input. -/
def chainHeap : Heap :=
  ⟨[⟨0, false, [('a', [1])], [], none⟩,
    ⟨1, false, [('a', [2])], [], none⟩,
    ⟨2, false, [('a', [3])], [], none⟩,
    ⟨3, true, [], [], none⟩],
   [⟨AType.DFA, [(0, 0), (1, 1), (2, 2), (3, 3)], ['a'], some 0, [3], 4, none⟩]⟩

/-- A well-formed one-state DFA (its start state accepts, no transitions).
Used as a concrete minimizer input. -/
def oneStateDfaHeap : Heap :=
  ⟨[⟨0, true, [], [], none⟩],
   [⟨AType.DFA, [(0, 0)], [], some 0, [0], 1, none⟩]⟩

/-- A two-state DFA over alphabet ['x'] whose start state accepts, used as a
concrete simulator input. -/
def simDfaHeap : Heap :=
  ⟨[⟨0, true, [('x', [1])], [], none⟩, ⟨1, false, [], [], none⟩],
   [⟨AType.DFA, [(0, 0), (1, 1)], ['x'], some 0, [0], 2, none⟩]⟩

/-- The same two-state DFA with its start state never set. -/
def noStartDfaHeap : Heap :=
  ⟨[⟨0, true, [('x', [1])], [], none⟩, ⟨1, false, [], [], none⟩],
   [⟨AType.DFA, [(0, 0), (1, 1)], ['x'], none, [0], 2, none⟩]⟩

/-- The regex of the spec's pipeline scenario. -/
def scenarioRegex : List Char := ['(', 'a', '|', 'b', ')', '*', 'a', 'b', 'b']

/-- Number of states of the scenario's minimal DFA. -/
def scenarioMinStates : Nat :=
  match pipeAll scenarioRegex 64 with
  | .ok (h, _, _, m) => (h.getAuto m).states.length
  | .error _ => 0

/-- The Thompson build of the postfix form of "ab". -/
def abNfaRes : Except Err (Heap × Nat) := buildNFA emptyHeap ['a', 'b', '.']

/-- Its heap. -/
def abNfaHeap : Heap := nfaHeapOf emptyHeap abNfaRes

/-- Its automaton reference. -/
def abNfaRef : Nat := refOf abNfaRes

/-- Minimization of the chain DFA. -/
def chainMinRes : Except Err (Heap × Nat × List (List Nat) × List (Nat × Nat)) :=
  minimize chainHeap 0 64

/-- Its heap. -/
def chainMinHeap : Heap := minHeapOf chainHeap chainMinRes

/-- Its result reference. -/
def chainMinRef : Nat := minRefOf chainMinRes

/-- Minimization of the one-state DFA. -/
def oneMinRes : Except Err (Heap × Nat × List (List Nat) × List (Nat × Nat)) :=
  minimize oneStateDfaHeap 0 16


/-- The final heap of the whole pipeline on a single-operand regex `[c]`
(`c` neither an operator, a parenthesis nor the epsilon marker): the
two-state NFA, its two-state DFA and the two-state MinDFA. -/
def singleCharHeap (c : Char) : Heap :=
  ⟨[⟨0, false, [(c, [1])], [], none⟩,
    ⟨1, true, [], [], none⟩,
    ⟨0, false, [(c, [3])], [], some [0]⟩,
    ⟨1, true, [], [], some [1]⟩,
    ⟨0, false, [(c, [5])], [], none⟩,
    ⟨1, true, [], [], none⟩],
   [⟨AType.NFA, [(0, 0), (1, 1)], [c], some 0, [1], 2, none⟩,
    ⟨AType.DFA, [(0, 2), (1, 3)], [c], some 2, [3], 2, some [1]⟩,
    ⟨AType.MinDFA, [(0, 4), (1, 5)], [c], some 4, [5], 2, none⟩]⟩

/-- Heap entries below fixed bounds are unchanged. -/
def presBelow (n0 m0 : Nat) (h0 h : Heap) : Prop :=
  (∀ i, i < n0 → h.objs[i]? = h0.objs[i]?) ∧
  (∀ j, j < m0 → h.autos[j]? = h0.autos[j]?)

/-- Invariant carried through a pipeline stage: the arenas have grown past
the original bounds and everything below them is untouched. -/
def FrameInv (n0 m0 : Nat) (h0 h : Heap) : Prop :=
  n0 ≤ h.objs.length ∧ m0 ≤ h.autos.length ∧ presBelow n0 m0 h0 h

/-- All state references registered in an automaton's states map lie at or
above a bound (they are fresh relative to that bound). -/
def StatesGE (h : Heap) (a : Nat) (n0 : Nat) : Prop :=
  ∀ p ∈ (h.getAuto a).states, n0 ≤ p.2

/-! ### Theorems -/

set_option maxRecDepth 40000

/-- C9: `ShuntingYard.convert` on the empty string does not fail:
validation returns no errors, the preprocessor turns the empty regex into
the epsilon marker, and the call succeeds with postfix `"ε"`. -/
theorem C9_empty_regex_converts_to_epsilon :
    validate [] = [] ∧ preprocess [] = ['ε'] ∧
    convert [] = { success := true, rpn := some ['ε'], errors := [] } := by
  decide

/-- C1 (counterexample): for the regex "ab" and the input "a" the pipeline's
NFA simulation rejects while the DFA and MinDFA simulations accept, so the
three automatons do NOT agree on every regex and string. -/
theorem C1_counterexample :
    nfaVerdict ['a', 'b'] 32 ['a'] = some false ∧
    dfaVerdict ['a', 'b'] 32 ['a'] = some true ∧
    minVerdict ['a', 'b'] 32 ['a'] = some true := by
  decide

/-- C2: for the Thompson NFA built from the postfix "ab." the four state
objects 0,1,2,3 are all reachable from the start state, yet objects 1 and 3
carry the same id 1, and the automaton's states collection registers only
objects 0 and 1 — reachable states 2 and 3 are not registered at all. -/
theorem C2_thompson_duplicate_unregistered_ids :
    abNfaRes.isOk = true ∧
    (abNfaHeap.getAuto abNfaRef).startState = some 0 ∧
    reachAll abNfaHeap 16 [0] [0] = [0, 1, 2, 3] ∧
    (abNfaHeap.getObj 1).id = 1 ∧ (abNfaHeap.getObj 3).id = 1 ∧
    (abNfaHeap.getAuto abNfaRef).states = [(0, 0), (1, 1)] := by
  decide

/-- C3: after minimizing the chain DFA for "aaa", the final partition
merges states 0 and 1 into one block although their 'a'-successors (1 and
2) lie in different final blocks — the partition is not a fixed point of
refinement, and the resulting MinDFA rejects "aaa" which the input DFA
accepts. -/
theorem C3_final_partition_not_fixed_point :
    minPartsOf chainMinRes = [[2], [0, 1], [3]] ∧
    assocGet (minStpOf chainMinRes) 0 = some 1 ∧
    assocGet (minStpOf chainMinRes) 1 = some 1 ∧
    getTransitions (chainHeap.getObj 0) 'a' = [1] ∧
    getTransitions (chainHeap.getObj 1) 'a' = [2] ∧
    assocGet (minStpOf chainMinRes) 2 = some 0 ∧
    verdict (accepts chainHeap 0 64 ['a', 'a', 'a']) = some true ∧
    verdict (accepts chainMinHeap chainMinRef 64 ['a', 'a', 'a']) = some false := by
  decide

/-- C4: compiling "(a|b)*abb" through the pipeline yields a MinDFA with 1
state (not 4) that accepts "abb" and "aabb" but ALSO accepts "ab" and
"abab", contradicting the scenario. -/
theorem C4_scenario_diverges :
    scenarioMinStates = 1 ∧
    minVerdict scenarioRegex 64 ['a', 'b', 'b'] = some true ∧
    minVerdict scenarioRegex 64 ['a', 'a', 'b', 'b'] = some true ∧
    minVerdict scenarioRegex 64 ['a', 'b'] = some true ∧
    minVerdict scenarioRegex 64 ['a', 'b', 'a', 'b'] = some true := by
  decide

/-- C6 (counterexample): the regex "@" contains a character that is no
operator, parenthesis, epsilon marker or declared alphabet symbol, yet
`convert` succeeds with postfix "@" instead of failing with an
invalid-symbol error. -/
theorem C6_counterexample :
    convert ['@'] = { success := true, rpn := some ['@'], errors := [] } := by
  decide

/-- C8 (counterexample): minimizing a well-formed one-state DFA returns the
INPUT automaton itself (same reference), with the input's kind tag mutated
from DFA to MinDFA — the stage both mutates its input and fails to return a
fresh instance. -/
theorem C8_counterexample :
    oneMinRes.isOk = true ∧
    minRefOf oneMinRes = 0 ∧
    (oneStateDfaHeap.getAuto 0).typ = AType.DFA ∧
    ((minHeapOf oneStateDfaHeap oneMinRes).getAuto 0).typ = AType.MinDFA := by
  decide

/-- A successful association lookup exhibits a member of the list. -/
theorem assocGet_mem {κ ν : Type} [DecidableEq κ] :
    ∀ (l : List (κ × ν)) (k : κ) (v : ν), assocGet l k = some v → (k, v) ∈ l
  | [], _, _, h => by simp [assocGet] at h
  | (k', v') :: rest, k, v, h => by
    by_cases hk : k' = k
    · subst hk
      simp [assocGet] at h
      subst h
      exact List.mem_cons_self _ _
    · simp [assocGet, hk] at h
      exact List.mem_cons_of_mem _ (assocGet_mem rest k v h)

/-- Dereferencing past the arena yields the default (inert) object. -/
theorem getObj_out_of_range (h : Heap) (r : Nat) (hr : h.objs.length ≤ r) :
    h.getObj r = default := by
  simp [Heap.getObj, List.getD]
  rw [List.getElem?_eq_none hr]
  rfl

/-- The accepted verdict of the DFA step loop equals the accepting flag at
the end of the deterministic walk (`false` when the walk gets stuck),
provided the heap is deterministic. -/
theorem simDFAgo_accepted (h : Heap) (hd : DetHeap h) :
    ∀ (rest : List Char) (cur : Nat) (i : Nat) (steps : List SimStep),
      (simDFAgo h cur rest i steps).accepted =
        (match dfaWalk h cur rest with
         | none => false
         | some q => (h.getObj q).isAccepting)
  | [], cur, i, steps => by simp [simDFAgo, dfaWalk]
  | c :: rs, cur, i, steps => by
    cases hl : assocGet (h.getObj cur).transitions c with
    | none => simp [simDFAgo, dfaWalk, dfaStep, getTransitions, hl]
    | some ts =>
      cases ts with
      | nil => simp [simDFAgo, dfaWalk, dfaStep, getTransitions, hl]
      | cons t ts' =>
        cases ts' with
        | nil =>
          simpa [simDFAgo, dfaWalk, dfaStep, getTransitions, hl] using
            simDFAgo_accepted h hd rs t (i + 1)
              (steps ++ [⟨i, [(h.getObj t).id], some c, rs, .transicion⟩])
        | cons t2 ts'' =>
          exfalso
          have hcur : cur < h.objs.length := by
            by_contra hge
            rw [getObj_out_of_range h cur (Nat.le_of_not_lt hge)] at hl
            simp [default, assocGet] at hl
          have hmem := assocGet_mem _ _ _ hl
          have := hd cur hcur _ hmem
          simp at this

/-- C5: for any DFA- or MinDFA-tagged automaton with a set start state and
deterministic transition sets, the simulator neither errs nor gets confused:
its verdict is the accepting flag of the state reached by the deterministic
walk (`false` when the walk gets stuck at a missing transition), and on the
empty input it is the start state's accepting flag. -/
theorem C5_simulator_walk (h : Heap) (a : Nat) (fuel : Nat) (w : List Char)
    (r : Nat)
    (ht : (h.getAuto a).typ = AType.DFA ∨ (h.getAuto a).typ = AType.MinDFA)
    (hs : (h.getAuto a).startState = some r) (hd : DetHeap h) :
    verdict (accepts h a fuel w) =
      some (match dfaWalk h r w with
            | none => false
            | some q => (h.getObj q).isAccepting) ∧
    (w = [] → verdict (accepts h a fuel w) = some ((h.getObj r).isAccepting)) := by
  have hacc : accepts h a fuel w = simulateDFA h a w := by
    unfold accepts
    rw [if_pos ht]
  have hsim : simulateDFA h a w =
      .ok (simDFAgo h r w 1 [⟨0, [(h.getObj r).id], none, w, .inicio⟩]) := by
    unfold simulateDFA
    rw [hs]
  constructor
  · rw [hacc, hsim]
    simp [verdict, acceptedOf, simDFAgo_accepted h hd]
  · intro hw
    subst hw
    rw [hacc, hsim]
    simp [verdict, acceptedOf, simDFAgo_accepted h hd, dfaWalk]

/-- C5 witness: the theorem applied to the concrete two-state DFA, input
"x" and the empty input. -/
theorem C5_simulator_walk_witness :
    verdict (accepts simDfaHeap 0 1 ['x']) =
      some (match dfaWalk simDfaHeap 0 ['x'] with
            | none => false
            | some q => (simDfaHeap.getObj q).isAccepting) ∧
    (['x'] = [] → verdict (accepts simDfaHeap 0 1 ['x']) =
      some ((simDfaHeap.getObj 0).isAccepting)) :=
  C5_simulator_walk simDfaHeap 0 1 ['x'] 0 (Or.inl rfl) rfl (by decide)

/-- C10: with a DFA or MinDFA kind tag, `accepts` on an automaton whose
start state was never set throws (the null dereference happens while
building the initial trace record), and with a set start state it never
throws. -/
theorem C10_null_start_total (h : Heap) (a : Nat) (fuel : Nat) (w : List Char)
    (ht : (h.getAuto a).typ = AType.DFA ∨ (h.getAuto a).typ = AType.MinDFA) :
    ((h.getAuto a).startState = none →
      accepts h a fuel w = .error .nullDeref) ∧
    (∀ r, (h.getAuto a).startState = some r →
      (accepts h a fuel w).isOk = true) := by
  have hacc : accepts h a fuel w = simulateDFA h a w := by
    unfold accepts
    rw [if_pos ht]
  constructor
  · intro hn
    rw [hacc]
    unfold simulateDFA
    rw [hn]
  · intro r hr
    rw [hacc]
    unfold simulateDFA
    rw [hr]
    rfl

/-- C10 witness: the theorem applied to the concrete DFA without a start
state (error) and, with a start state, to the same machine (no error). -/
theorem C10_null_start_total_witness :
    accepts noStartDfaHeap 0 1 ['x'] = .error .nullDeref ∧
    (accepts simDfaHeap 0 1 ['x']).isOk = true :=
  ⟨(C10_null_start_total noStartDfaHeap 0 1 ['x'] (Or.inl rfl)).1 rfl,
   (C10_null_start_total simDfaHeap 0 1 ['x'] (Or.inl rfl)).2 0 rfl⟩

/-- The parenthesis scan of `validate` only ever reports parenthesis
errors. -/
theorem validateParens_no_invalid (c : Char) :
    ∀ (l : List Char) (bal : Nat), Err.invalidSymbol c ∉ validateParens l bal
  | [], bal => by
    unfold validateParens
    split <;> simp
  | x :: rest, bal => by
    unfold validateParens
    by_cases h1 : x = '('
    · simp only [h1, if_pos rfl]
      exact validateParens_no_invalid c rest (bal + 1)
    · rw [if_neg h1]
      by_cases h2 : x = ')'
      · rw [if_pos h2]
        cases bal with
        | zero => simp
        | succ b => exact validateParens_no_invalid c rest b
      · rw [if_neg h2]
        exact validateParens_no_invalid c rest bal

/-- The consecutive-binary-operator scan only reports that error. -/
theorem validateConsec_no_invalid (c : Char) :
    ∀ (l : List Char), Err.invalidSymbol c ∉ validateConsec l
  | [] => by simp [validateConsec]
  | [_] => by simp [validateConsec]
  | c1 :: c2 :: rest => by
    unfold validateConsec
    intro hmem
    rcases List.mem_append.1 hmem with hmem | hmem
    · split at hmem <;> simp at hmem
    · exact validateConsec_no_invalid c (c2 :: rest) hmem

/-- `validate` never reports an invalid-symbol error. -/
theorem validate_no_invalid (l : List Char) (c : Char) :
    Err.invalidSymbol c ∉ validate l := by
  unfold validate
  intro hmem
  rcases List.mem_append.1 hmem with hmem | hmem
  · rcases List.mem_append.1 hmem with hmem | hmem
    · rcases List.mem_append.1 hmem with hmem | hmem
      · exact validateParens_no_invalid c l 0 hmem
      · exact validateConsec_no_invalid c l hmem
    · rcases l with _ | ⟨x, rest⟩
      · simp at hmem
      · revert hmem
        split <;> simp
  · rcases hl : l.getLast? with _ | x <;> rw [hl] at hmem
    · simp at hmem
    · revert hmem
      split <;> simp

/-- Draining the operator stack can only fail with the end-of-input
unbalanced-parenthesis error. -/
theorem syFlush_err (e : Err) :
    ∀ (stk out : List Char), syFlush stk out = .error e →
      e = Err.unbalancedEndSY
  | [], out, h => by simp [syFlush] at h
  | x :: rest, out, h => by
    unfold syFlush at h
    split at h
    · cases h
      rfl
    · exact syFlush_err e rest (out ++ [x]) h

/-- The token loop of the Shunting Yard algorithm can only fail with an
unbalanced-parenthesis error: the invalid-symbol branch is unreachable
because `isOperand` covers every character that is neither an operator nor
a parenthesis. -/
theorem syGo_err (e : Err) :
    ∀ (toks out stk : List Char), syGo toks out stk = .error e →
      e = Err.unbalancedCloseSY ∨ e = Err.unbalancedEndSY
  | [], out, stk, h => Or.inr (syFlush_err e stk out h)
  | t :: rest, out, stk, h => by
    unfold syGo at h
    by_cases h1 : isOperand t
    · rw [if_pos h1] at h
      exact syGo_err e rest (out ++ [t]) stk h
    · rw [if_neg h1] at h
      by_cases h2 : isOperator t
      · rw [if_pos h2] at h
        exact syGo_err e rest (out ++ (popWhileGE stk t).1)
          (t :: (popWhileGE stk t).2) h
      · rw [if_neg h2] at h
        by_cases h3 : t = '('
        · rw [if_pos h3] at h
          exact syGo_err e rest out (t :: stk) h
        · rw [if_neg h3] at h
          by_cases h4 : t = ')'
          · rw [if_pos h4] at h
            rcases hp : popToParen stk [] with _ | ⟨popped, stk'⟩ <;>
              rw [hp] at h
            · cases h
              exact Or.inl rfl
            · exact syGo_err e rest (out ++ popped) stk' h
          · exfalso
            apply h1
            simp [isOperand, h2, h3, h4]

/-- C6: `ShuntingYard.convert` never fails with an invalid-symbol error, on
any input regex: every character that is not an operator or a parenthesis
is treated as an operand. -/
theorem C6_invalid_symbol_never_reported (regex : List Char) (c : Char) :
    Err.invalidSymbol c ∉ (convert regex).errors := by
  intro hmem
  unfold convert at hmem
  rcases hv : validate regex with _ | ⟨e0, es⟩ <;> rw [hv] at hmem
  · rcases hsy : shuntingYardAlg (preprocess regex) with e1 | p <;>
      rw [hsy] at hmem
    · simp only [List.mem_singleton] at hmem
      rcases syGo_err e1 (preprocess regex) [] [] hsy with h | h <;>
        rw [h] at hmem <;> cases hmem
    · simp at hmem
  · have hni := validate_no_invalid regex c
    rw [hv] at hni
    exact hni (by simpa using hmem)

/-- The subset-construction worklist loop can only fail by running out of
fuel (the JS loop always terminates; no other throw exists in it). -/
theorem scLoop_err (nfaSrc dfa : Nat) (accIds : List Nat)
    (alpha : List Char) (e : Err) :
    ∀ (fuel : Nat) (h : Heap) (km : List (List Nat × Nat))
      (seen pending : List (List Nat)),
      scLoop nfaSrc dfa accIds alpha fuel h km seen pending = .error e →
        e = Err.fuelOut
  | fuel, h, km, seen, [] => by
    intro hc
    cases fuel <;> simp [scLoop] at hc
  | 0, h, km, seen, cur :: pending => by
    intro hc
    unfold scLoop at hc
    cases hc
    rfl
  | fuel + 1, h, km, seen, cur :: pending => by
    intro hc
    unfold scLoop at hc
    exact scLoop_err nfaSrc dfa accIds alpha e fuel _ _ _ _ hc

/-- `removeUnreachableStates` can only fail on a null start state. -/
theorem removeUnreachable_err (h : Heap) (a : Nat) (fuel : Nat) (e : Err) :
    removeUnreachableStates h a fuel = .error e → e = Err.nullDeref := by
  intro hc
  unfold removeUnreachableStates at hc
  split at hc
  · cases hc
    rfl
  · rename_i s0 _
    by_cases hlen : (bfsReach h fuel [s0] [s0]).length =
        (h.getAuto a).states.length
    · rw [if_pos hlen] at hc
      cases hc
    · rw [if_neg hlen] at hc
      cases hc

/-- C7: the determinizer rejects exactly the automatons not tagged NFA with
the wrong-kind error, and the minimizer rejects exactly the automatons not
tagged DFA (in particular a MinDFA) with its wrong-kind error; a correctly
tagged input never produces that error. -/
theorem C7_wrong_kind_checks (h : Heap) (a : Nat) (fuel : Nat) :
    (convertToDFA h a fuel = .error .wrongKindDFA ↔
      (h.getAuto a).typ ≠ AType.NFA) ∧
    (minimize h a fuel = .error .wrongKindMin ↔
      (h.getAuto a).typ ≠ AType.DFA) := by
  constructor
  · constructor
    · intro hc
      intro hn
      unfold convertToDFA at hc
      rw [if_neg (by simp [hn])] at hc
      split at hc
      · simp at hc
      · have := scLoop_err a _ _ _ _ _ _ _ _ _ hc
        simp at this
    · intro hn
      unfold convertToDFA
      rw [if_pos hn]
  · constructor
    · intro hc
      intro hn
      unfold minimize at hc
      rw [if_neg (by simp [hn])] at hc
      split at hc
      · rename_i e1 he1
        have := removeUnreachable_err h a fuel e1 he1
        subst this
        simp at hc
      · split at hc <;> simp at hc
    · intro hn
      unfold minimize
      rw [if_pos hn]

/-! #### Frame lemmas: pipeline stages write only to freshly allocated
heap entries -/

theorem getAuto_setObj (h : Heap) (r : Nat) (s : StateObj) (a : Nat) :
    (h.setObj r s).getAuto a = h.getAuto a := rfl

theorem getObj_setAuto (h : Heap) (a : Nat) (v : AutoObj) (r : Nat) :
    (h.setAuto a v).getObj r = h.getObj r := rfl

theorem getObj_allocAuto (h : Heap) (v : AutoObj) (r : Nat) :
    ((h.allocAuto v).2).getObj r = h.getObj r := rfl

theorem getAuto_allocObj (h : Heap) (s : StateObj) (a : Nat) :
    ((h.allocObj s).2).getAuto a = h.getAuto a := rfl

theorem getAuto_setAuto_self (h : Heap) (a : Nat) (v : AutoObj)
    (hlt : a < h.autos.length) : (h.setAuto a v).getAuto a = v := by
  simp [Heap.getAuto, Heap.setAuto, List.getD]
  rw [List.getElem?_set_self', List.getElem?_eq_getElem hlt]
  rfl

theorem getAuto_allocAuto_old (h : Heap) (v : AutoObj) (a : Nat)
    (hlt : a < h.autos.length) : ((h.allocAuto v).2).getAuto a = h.getAuto a := by
  simp [Heap.getAuto, Heap.allocAuto, List.getD]
  rw [List.getElem?_append_left hlt]

theorem frame_setObj {n0 m0 : Nat} {h0 h : Heap} {r : Nat} {s : StateObj}
    (hI : FrameInv n0 m0 h0 h) (hr : n0 ≤ r) :
    FrameInv n0 m0 h0 (h.setObj r s) := by
  obtain ⟨hlo, hla, hpo, hpa⟩ := hI
  refine ⟨by simpa [Heap.setObj] using hlo, hla, fun i hi => ?_, hpa⟩
  rw [show (h.setObj r s).objs = h.objs.set r s from rfl]
  rw [List.getElem?_set_ne (by omega)]
  exact hpo i hi

theorem frame_setAuto {n0 m0 : Nat} {h0 h : Heap} {a : Nat} {v : AutoObj}
    (hI : FrameInv n0 m0 h0 h) (ha : m0 ≤ a) :
    FrameInv n0 m0 h0 (h.setAuto a v) := by
  obtain ⟨hlo, hla, hpo, hpa⟩ := hI
  refine ⟨hlo, by simpa [Heap.setAuto] using hla, hpo, fun j hj => ?_⟩
  rw [show (h.setAuto a v).autos = h.autos.set a v from rfl]
  rw [List.getElem?_set_ne (by omega)]
  exact hpa j hj

theorem frame_allocObj {n0 m0 : Nat} {h0 h : Heap} {s : StateObj}
    (hI : FrameInv n0 m0 h0 h) :
    FrameInv n0 m0 h0 (h.allocObj s).2 ∧ n0 ≤ (h.allocObj s).1 := by
  obtain ⟨hlo, hla, hpo, hpa⟩ := hI
  refine ⟨⟨by simp [Heap.allocObj]; omega, hla, fun i hi => ?_, hpa⟩, hlo⟩
  rw [show ((h.allocObj s).2).objs = h.objs ++ [s] from rfl]
  rw [List.getElem?_append_left (by omega)]
  exact hpo i hi

theorem frame_allocAuto {n0 m0 : Nat} {h0 h : Heap} {v : AutoObj}
    (hI : FrameInv n0 m0 h0 h) :
    FrameInv n0 m0 h0 (h.allocAuto v).2 ∧ m0 ≤ (h.allocAuto v).1 := by
  obtain ⟨hlo, hla, hpo, hpa⟩ := hI
  refine ⟨⟨hlo, by simp [Heap.allocAuto]; omega, hpo, fun j hj => ?_⟩, hla⟩
  rw [show ((h.allocAuto v).2).autos = h.autos ++ [v] from rfl]
  rw [List.getElem?_append_left (by omega)]
  exact hpa j hj

theorem frame_createState {n0 m0 : Nat} {h0 h : Heap} {a : Nat} {b : Bool}
    (hI : FrameInv n0 m0 h0 h) (ha : m0 ≤ a) :
    FrameInv n0 m0 h0 (autoCreateState h a b).2 ∧
      n0 ≤ (autoCreateState h a b).1 := by
  unfold autoCreateState
  obtain ⟨hI1, hfresh⟩ := frame_allocObj (s :=
    { id := (h.getAuto a).stateCounter, isAccepting := b, transitions := [],
      epsilonTransitions := [], originNFAIds := none }) hI
  exact ⟨frame_setAuto hI1 ha, hfresh⟩

theorem frame_addState {n0 m0 : Nat} {h0 h : Heap} {a r : Nat}
    (hI : FrameInv n0 m0 h0 h) (ha : m0 ≤ a) :
    FrameInv n0 m0 h0 (autoAddState h a r) :=
  frame_setAuto hI ha

theorem frame_addAcceptState {n0 m0 : Nat} {h0 h : Heap} {a r : Nat}
    (hI : FrameInv n0 m0 h0 h) (ha : m0 ≤ a) (hr : n0 ≤ r) :
    FrameInv n0 m0 h0 (autoAddAcceptState h a r) :=
  frame_setAuto (frame_setObj hI hr) ha

theorem frame_setStart {n0 m0 : Nat} {h0 h : Heap} {a r : Nat}
    (hI : FrameInv n0 m0 h0 h) (ha : m0 ≤ a) :
    FrameInv n0 m0 h0 (autoSetStart h a r) :=
  frame_setAuto hI ha

theorem frame_setStartOpt {n0 m0 : Nat} {h0 h : Heap} {a : Nat}
    {r : Option Nat} (hI : FrameInv n0 m0 h0 h) (ha : m0 ≤ a) :
    FrameInv n0 m0 h0 (autoSetStartOpt h a r) :=
  frame_setAuto hI ha

theorem frame_addTransition {n0 m0 : Nat} {h0 h : Heap} {a f : Nat}
    {c : Char} {t : Nat} (hI : FrameInv n0 m0 h0 h) (ha : m0 ≤ a)
    (hf : n0 ≤ f) :
    FrameInv n0 m0 h0 (autoAddTransition h a f c t) := by
  unfold autoAddTransition
  have h1 := frame_setObj (s := stAddTransition (h.getObj f) c t) hI hf
  split
  · exact h1
  · exact frame_setAuto h1 ha

theorem getAuto_setAuto_ne (h : Heap) (a : Nat) (v : AutoObj) (a' : Nat)
    (hne : a ≠ a') : (h.setAuto a v).getAuto a' = h.getAuto a' := by
  simp [Heap.getAuto, Heap.setAuto, List.getD]
  rw [List.getElem?_set_ne hne]

theorem getAuto_setAuto_oor (h : Heap) (a : Nat) (v : AutoObj)
    (hge : h.autos.length ≤ a) : (h.setAuto a v).autos = h.autos := by
  simp [Heap.setAuto, List.set_eq_of_length_le hge]

/-- Replacing an automaton record with one that keeps the same states map
leaves every automaton's states map unchanged. -/
theorem getAuto_states_setAuto (h : Heap) (a : Nat) (v : AutoObj)
    (hv : v.states = (h.getAuto a).states) (a' : Nat) :
    ((h.setAuto a v).getAuto a').states = (h.getAuto a').states := by
  by_cases heq : a = a'
  · subst heq
    by_cases hlt : a < h.autos.length
    · rw [getAuto_setAuto_self _ _ _ hlt, hv]
    · have h2 := getAuto_setAuto_oor h a v (Nat.le_of_not_lt hlt)
      simp only [Heap.getAuto]
      rw [h2]
  · rw [getAuto_setAuto_ne _ _ _ _ heq]

/-- `addTransition` never changes any automaton's states map. -/
theorem states_addTransition (h : Heap) (a f : Nat) (c : Char) (t : Nat)
    (a' : Nat) :
    ((autoAddTransition h a f c t).getAuto a').states =
      (h.getAuto a').states := by
  unfold autoAddTransition
  split
  · rfl
  · exact getAuto_states_setAuto (h.setObj f (stAddTransition (h.getObj f) c t))
      a { h.getAuto a with alphabet := pushNew (h.getAuto a).alphabet c } rfl a'

/-- `addTransition` never changes automaton-arena length. -/
theorem autosLen_addTransition (h : Heap) (a f : Nat) (c : Char) (t : Nat) :
    (autoAddTransition h a f c t).autos.length = h.autos.length := by
  unfold autoAddTransition
  split
  · rfl
  · simp [Heap.setAuto, Heap.setObj]

/-- `createState` keeps the automaton-arena length. -/
theorem autosLen_createState (h : Heap) (a : Nat) (b : Bool) :
    ((autoCreateState h a b).2).autos.length = h.autos.length := by
  unfold autoCreateState
  simp [Heap.setAuto, Heap.allocObj]

/-- The states map after `createState` (on a live automaton) is the old one
extended at the counter key with the fresh reference. -/
theorem states_createState (h : Heap) (a : Nat) (b : Bool)
    (hlt : a < h.autos.length) :
    (((autoCreateState h a b).2).getAuto a).states =
      assocSet (h.getAuto a).states (h.getAuto a).stateCounter
        (autoCreateState h a b).1 := by
  unfold autoCreateState
  rw [getAuto_setAuto_self _ _ _ (by simpa [Heap.allocObj] using hlt)]

/-- Any binding of an `assocSet` result is either an old binding or carries
the new value. -/
theorem assocSet_mem {κ ν : Type} [DecidableEq κ] (m : List (κ × ν))
    (k : κ) (v : ν) :
    ∀ p ∈ assocSet m k v, p ∈ m ∨ p.2 = v := by
  intro p hp
  unfold assocSet at hp
  split at hp
  · rcases List.mem_map.1 hp with ⟨q, hq, hpq⟩
    by_cases hk : q.1 = k
    · rw [if_pos hk] at hpq
      right
      rw [← hpq]
    · rw [if_neg hk] at hpq
      left
      rw [← hpq]
      exact hq
  · rcases List.mem_append.1 hp with hp | hp
    · exact Or.inl hp
    · right
      rw [List.mem_singleton.1 hp]

/-- `getOrCreateDFAState` preserves the frame invariant, returns a fresh (or
dead) reference, and keeps all registered DFA state references fresh. -/
theorem frame_getOrCreate {n0 m0 : Nat} {h0 h : Heap} {dfa : Nat}
    {s accIds : List Nat} {km : List (List Nat × Nat)}
    (hI : FrameInv n0 m0 h0 h) (hd : m0 ≤ dfa)
    (hlt : dfa < h.autos.length) (hs : StatesGE h dfa n0)
    (hdead : n0 ≤ deadRef) :
    FrameInv n0 m0 h0 (getOrCreateDFAState h dfa s accIds km).2.1 ∧
    n0 ≤ (getOrCreateDFAState h dfa s accIds km).1 ∧
    StatesGE (getOrCreateDFAState h dfa s accIds km).2.1 dfa n0 ∧
    dfa < ((getOrCreateDFAState h dfa s accIds km).2.1).autos.length := by
  rcases hkm : assocGet km (stateSetKey h s) with _ | id <;>
    simp only [getOrCreateDFAState, hkm]
  · obtain ⟨hI1, hfresh⟩ :=
      frame_createState (b := isAcceptingSetFrom h s accIds) hI hd
    refine ⟨frame_setObj hI1 hfresh, hfresh, ?_, ?_⟩
    · intro p hp
      rw [getAuto_setObj, states_createState h dfa _ hlt] at hp
      rcases assocSet_mem _ _ _ p hp with hp | hp
      · exact hs p hp
      · rw [hp]
        exact hfresh
    · simp only [Heap.setObj]
      rw [autosLen_createState]
      exact hlt
  · refine ⟨hI, ?_, hs, hlt⟩
    cases hsr : assocGet (h.getAuto dfa).states id with
    | none => simpa [hsr] using hdead
    | some r =>
      simp only [hsr, Option.getD_some]
      exact hs _ (assocGet_mem _ _ _ hsr)

theorem getAuto_allocAuto_new (h : Heap) (v : AutoObj) :
    ((h.allocAuto v).2).getAuto (h.allocAuto v).1 = v := by
  simp [Heap.getAuto, Heap.allocAuto, List.getD]

/-- One symbol step of the subset-construction BFS preserves the frame
invariant and the freshness of the registered DFA states. -/
theorem frame_scSymStep {n0 m0 : Nat} {h0 : Heap} {dfa : Nat}
    {accIds : List Nat} {fuel : Nat} {cur : List Nat} {fromRef : Nat}
    {st : Heap × List (List Nat × Nat) × List (List Nat) × List (List Nat)}
    {c : Char}
    (hI : FrameInv n0 m0 h0 st.1) (hd : m0 ≤ dfa)
    (hs : StatesGE st.1 dfa n0) (hlt : dfa < st.1.autos.length)
    (hfrom : n0 ≤ fromRef) (hdead : n0 ≤ deadRef) :
    FrameInv n0 m0 h0 (scSymStep dfa accIds fuel cur fromRef st c).1 ∧
    StatesGE (scSymStep dfa accIds fuel cur fromRef st c).1 dfa n0 ∧
    dfa < ((scSymStep dfa accIds fuel cur fromRef st c).1).autos.length := by
  rcases hm : moveSet st.1 cur c with _ | ⟨m, ms⟩ <;>
    simp only [scSymStep, hm]
  · exact ⟨hI, hs, hlt⟩
  · obtain ⟨hI1, hto, hs1, hlt1⟩ := @frame_getOrCreate _ _ _ _ _
      (epsilonClosure st.1 fuel (m :: ms)) _ st.2.1 hI hd hlt hs hdead
    have hI2 := frame_addTransition (c := c)
      (t := (getOrCreateDFAState st.1 dfa (epsilonClosure st.1 fuel (m :: ms))
        accIds st.2.1).1) hI1 hd hfrom
    have hs2 : StatesGE (autoAddTransition
        ((getOrCreateDFAState st.1 dfa (epsilonClosure st.1 fuel (m :: ms))
          accIds st.2.1).2.1) dfa fromRef c
        ((getOrCreateDFAState st.1 dfa (epsilonClosure st.1 fuel (m :: ms))
          accIds st.2.1).1)) dfa n0 := by
      intro p hp
      rw [states_addTransition] at hp
      exact hs1 p hp
    have hlt2 : dfa < (autoAddTransition
        ((getOrCreateDFAState st.1 dfa (epsilonClosure st.1 fuel (m :: ms))
          accIds st.2.1).2.1) dfa fromRef c
        ((getOrCreateDFAState st.1 dfa (epsilonClosure st.1 fuel (m :: ms))
          accIds st.2.1).1)).autos.length := by
      rw [autosLen_addTransition]
      exact hlt1
    split <;> exact ⟨hI2, hs2, hlt2⟩

/-- Folding the symbol step over the alphabet preserves the invariant. -/
theorem frame_scFold {n0 m0 : Nat} {h0 : Heap} {dfa : Nat}
    {accIds : List Nat} {fuel : Nat} {cur : List Nat} {fromRef : Nat}
    (hd : m0 ≤ dfa) (hfrom : n0 ≤ fromRef) (hdead : n0 ≤ deadRef) :
    ∀ (alpha : List Char)
      (st : Heap × List (List Nat × Nat) × List (List Nat) × List (List Nat)),
      FrameInv n0 m0 h0 st.1 → StatesGE st.1 dfa n0 →
      dfa < st.1.autos.length →
      FrameInv n0 m0 h0
          (alpha.foldl (scSymStep dfa accIds fuel cur fromRef) st).1 ∧
        StatesGE (alpha.foldl (scSymStep dfa accIds fuel cur fromRef) st).1
          dfa n0 ∧
        dfa < ((alpha.foldl (scSymStep dfa accIds fuel cur fromRef) st).1).autos.length
  | [], st, hI, hs, hlt => ⟨hI, hs, hlt⟩
  | c :: cs, st, hI, hs, hlt => by
    obtain ⟨hI1, hs1, hlt1⟩ :=
      @frame_scSymStep _ _ _ _ _ _ _ _ st c hI hd hs hlt hfrom hdead
    exact frame_scFold hd hfrom hdead cs _ hI1 hs1 hlt1

/-- The subset-construction worklist loop, when it succeeds, preserves the
frame invariant and returns the DFA it was given. -/
theorem frame_scLoop {n0 m0 : Nat} {h0 : Heap} (nfaSrc dfa : Nat)
    (accIds : List Nat) (alpha : List Char) (hd : m0 ≤ dfa)
    (hdead : n0 ≤ deadRef) :
    ∀ (fuel : Nat) (h : Heap) (km : List (List Nat × Nat))
      (seen pending : List (List Nat)) (h' : Heap) (d : Nat),
      FrameInv n0 m0 h0 h → StatesGE h dfa n0 → dfa < h.autos.length →
      scLoop nfaSrc dfa accIds alpha fuel h km seen pending = .ok (h', d) →
      FrameInv n0 m0 h0 h' ∧ d = dfa
  | fuel, h, km, seen, [], h', d, hI, hs, hlt, hok => by
    cases fuel <;>
      · simp only [scLoop, Except.ok.injEq, Prod.mk.injEq] at hok
        obtain ⟨hh, hd'⟩ := hok
        subst hh
        subst hd'
        exact ⟨frame_setAuto hI hd, rfl⟩
  | 0, h, km, seen, cur :: pending, h', d, hI, hs, hlt, hok => by
    simp [scLoop] at hok
  | fuel + 1, h, km, seen, cur :: pending, h', d, hI, hs, hlt, hok => by
    unfold scLoop at hok
    have hfrom : n0 ≤ (assocGet (h.getAuto dfa).states
        ((assocGet km (stateSetKey h cur)).getD deadRef)).getD deadRef := by
      cases hsr : assocGet (h.getAuto dfa).states
          ((assocGet km (stateSetKey h cur)).getD deadRef) with
      | none => simpa using hdead
      | some r =>
        simp only [Option.getD_some]
        exact hs _ (assocGet_mem _ _ _ hsr)
    obtain ⟨hI1, hs1, hlt1⟩ := @frame_scFold _ _ _ dfa accIds fuel cur _
      hd hfrom hdead alpha (h, km, seen, pending)
      hI hs hlt
    exact frame_scLoop nfaSrc dfa accIds alpha hd hdead fuel _ _ _ _ h' d
      hI1 hs1 hlt1 hok

/-- The determinizer writes only to freshly allocated heap entries and
returns a fresh automaton. -/
theorem frame_convertToDFA (h : Heap) (a : Nat) (fuel : Nat)
    (ho : h.objs.length ≤ deadRef) :
    dfaFreshFrame h (convertToDFA h a fuel) := by
  rcases hr : convertToDFA h a fuel with e | ⟨h', d⟩
  · simp [dfaFreshFrame]
  · simp only [dfaFreshFrame]
    simp only [convertToDFA] at hr
    split at hr
    · cases hr
    · split at hr
      · cases hr
      · rename_i s0 _
        have hInit : FrameInv h.objs.length h.autos.length h h :=
          ⟨Nat.le_refl _, Nat.le_refl _, fun _ _ => rfl, fun _ _ => rfl⟩
        obtain ⟨hI1, hdge⟩ :=
          frame_allocAuto (v := newAutomaton .DFA) hInit
        have hdfa : (h.allocAuto (newAutomaton .DFA)).1 = h.autos.length := rfl
        have hlt1 : (h.allocAuto (newAutomaton .DFA)).1 <
            ((h.allocAuto (newAutomaton .DFA)).2).autos.length := by
          simp [Heap.allocAuto]
        have hs1 : StatesGE (h.allocAuto (newAutomaton .DFA)).2
            (h.allocAuto (newAutomaton .DFA)).1 h.objs.length := by
          intro p hp
          rw [getAuto_allocAuto_new] at hp
          simp [newAutomaton] at hp
        obtain ⟨hI2, hq0, hs2, hlt2⟩ := @frame_getOrCreate _ _ _ _ _
          (epsilonClosure (h.allocAuto (newAutomaton .DFA)).2 fuel [s0])
          (List.foldl (fun l r => pushNew l (h.getObj r).id) []
            (h.getAuto a).acceptStates)
          [] hI1 hdge hlt1 hs1 ho
        have hI3 := frame_setStart (r :=
          (getOrCreateDFAState (h.allocAuto (newAutomaton .DFA)).2
            (h.allocAuto (newAutomaton .DFA)).1
            (epsilonClosure (h.allocAuto (newAutomaton .DFA)).2 fuel [s0])
            (List.foldl (fun l r => pushNew l (h.getObj r).id) []
              (h.getAuto a).acceptStates) []).1) hI2 hdge
        have hs3 : StatesGE (autoSetStart
            ((getOrCreateDFAState (h.allocAuto (newAutomaton .DFA)).2
              (h.allocAuto (newAutomaton .DFA)).1
              (epsilonClosure (h.allocAuto (newAutomaton .DFA)).2 fuel [s0])
              (List.foldl (fun l r => pushNew l (h.getObj r).id) []
                (h.getAuto a).acceptStates) []).2.1)
            (h.allocAuto (newAutomaton .DFA)).1
            ((getOrCreateDFAState (h.allocAuto (newAutomaton .DFA)).2
              (h.allocAuto (newAutomaton .DFA)).1
              (epsilonClosure (h.allocAuto (newAutomaton .DFA)).2 fuel [s0])
              (List.foldl (fun l r => pushNew l (h.getObj r).id) []
                (h.getAuto a).acceptStates) []).1))
            (h.allocAuto (newAutomaton .DFA)).1 h.objs.length := by
          intro p hp
          unfold autoSetStart at hp
          rw [getAuto_states_setAuto
            ((getOrCreateDFAState (h.allocAuto (newAutomaton .DFA)).2
              (h.allocAuto (newAutomaton .DFA)).1
              (epsilonClosure (h.allocAuto (newAutomaton .DFA)).2 fuel [s0])
              (List.foldl (fun l r => pushNew l (h.getObj r).id) []
                (h.getAuto a).acceptStates) []).2.1)
            (h.allocAuto (newAutomaton .DFA)).1
            { ((getOrCreateDFAState (h.allocAuto (newAutomaton .DFA)).2
                (h.allocAuto (newAutomaton .DFA)).1
                (epsilonClosure (h.allocAuto (newAutomaton .DFA)).2 fuel [s0])
                (List.foldl (fun l r => pushNew l (h.getObj r).id) []
                  (h.getAuto a).acceptStates) []).2.1).getAuto
                ((h.allocAuto (newAutomaton .DFA)).1) with
              startState := some ((getOrCreateDFAState
                (h.allocAuto (newAutomaton .DFA)).2
                (h.allocAuto (newAutomaton .DFA)).1
                (epsilonClosure (h.allocAuto (newAutomaton .DFA)).2 fuel [s0])
                (List.foldl (fun l r => pushNew l (h.getObj r).id) []
                  (h.getAuto a).acceptStates) []).1) } rfl] at hp
          exact hs2 p hp
        have hlt3 : (h.allocAuto (newAutomaton .DFA)).1 <
            (autoSetStart
              ((getOrCreateDFAState (h.allocAuto (newAutomaton .DFA)).2
                (h.allocAuto (newAutomaton .DFA)).1
                (epsilonClosure (h.allocAuto (newAutomaton .DFA)).2 fuel [s0])
                (List.foldl (fun l r => pushNew l (h.getObj r).id) []
                  (h.getAuto a).acceptStates) []).2.1)
              (h.allocAuto (newAutomaton .DFA)).1
              ((getOrCreateDFAState (h.allocAuto (newAutomaton .DFA)).2
                (h.allocAuto (newAutomaton .DFA)).1
                (epsilonClosure (h.allocAuto (newAutomaton .DFA)).2 fuel [s0])
                (List.foldl (fun l r => pushNew l (h.getObj r).id) []
                  (h.getAuto a).acceptStates) []).1)).autos.length := by
          unfold autoSetStart
          simpa [Heap.setAuto] using hlt2
        obtain ⟨hIfin, hdeq⟩ := frame_scLoop a
          (h.allocAuto (newAutomaton .DFA)).1 _ _ hdge ho fuel _ _ _ _ h' d
          hI3 hs3 hlt3 hr
        refine ⟨⟨hIfin.2.2.1, hIfin.2.2.2⟩, ?_⟩
        rw [hdeq, hdfa]

/-- A fold preserves any invariant its step preserves. -/
theorem foldl_inv {α β : Type} (f : β → α → β) (P : β → Prop)
    (hf : ∀ b x, P b → P (f b x)) :
    ∀ (l : List α) (b : β), P b → P (l.foldl f b)
  | [], b, hb => hb
  | x :: xs, b, hb => foldl_inv f P hf xs (f b x) (hf b x hb)

/-- One clone step of `removeUnreachableStates` preserves the frame
invariant and the freshness of the mapping's new references. -/
theorem frame_cloneReachStep {n0 m0 : Nat} {h0 : Heap} {nd s0 : Nat}
    (hnd : m0 ≤ nd) (p : Heap × List (Nat × Nat)) (old : Nat)
    (hp : FrameInv n0 m0 h0 p.1 ∧ ∀ q ∈ p.2, n0 ≤ q.2) :
    FrameInv n0 m0 h0 (cloneReachStep nd s0 p old).1 ∧
      ∀ q ∈ (cloneReachStep nd s0 p old).2, n0 ≤ q.2 := by
  obtain ⟨hI, hmap⟩ := hp
  obtain ⟨hIa, hnr⟩ := frame_allocObj (s := cloneOf (p.1.getObj old)) hI
  have hIb := frame_addState
    (r := (p.1.allocObj (cloneOf (p.1.getObj old))).1) hIa hnd
  constructor
  · simp only [cloneReachStep]
    split
    · exact frame_setStart hIb hnd
    · exact hIb
  · simp only [cloneReachStep]
    intro q hq
    rcases List.mem_append.1 hq with hq | hq
    · exact hmap q hq
    · rw [List.mem_singleton.1 hq]
      exact hnr

/-- One transition-copy step of `removeUnreachableStates` preserves the
frame invariant: it writes only through the (fresh or dead) mapping. -/
theorem frame_copyTransStep {n0 m0 : Nat} {h0 : Heap} {nd : Nat}
    (hnd : m0 ≤ nd) (mp : List (Nat × Nat))
    (hmp : ∀ q ∈ mp, n0 ≤ q.2) (hdead : n0 ≤ deadRef)
    (reach : List Nat) (hh : Heap) (old : Nat)
    (hI : FrameInv n0 m0 h0 hh) :
    FrameInv n0 m0 h0 (copyTransStep nd mp reach hh old) := by
  unfold copyTransStep
  refine foldl_inv _ (fun hh => FrameInv n0 m0 h0 hh) ?_ _ hh hI
  intro hh e hI2
  refine foldl_inv _ (fun hh => FrameInv n0 m0 h0 hh) ?_ _ hh hI2
  intro hh t hI3
  split
  · refine frame_addTransition hI3 hnd ?_
    cases hq : assocGet mp old with
    | none => simpa using hdead
    | some r =>
      simp only [Option.getD_some]
      exact hmp _ (assocGet_mem _ _ _ hq)
  · exact hI3

/-- `removeUnreachableStates`, when it succeeds, either returns the input
itself unchanged or builds a fresh automaton without touching anything
pre-existing. -/
theorem frame_removeUnreachable (h : Heap) (a : Nat) (fuel : Nat)
    (ho : h.objs.length ≤ deadRef) (h' : Heap) (rd : Nat)
    (hr : removeUnreachableStates h a fuel = .ok (h', rd)) :
    (h' = h ∧ rd = a) ∨
    (FrameInv h.objs.length h.autos.length h h' ∧ h.autos.length ≤ rd) := by
  simp only [removeUnreachableStates] at hr
  split at hr
  · cases hr
  · rename_i s0 _
    split at hr
    · obtain ⟨hh, hrd⟩ := Prod.mk.inj (Except.ok.inj hr)
      exact Or.inl ⟨hh.symm, hrd.symm⟩
    · right
      obtain ⟨hh, hrd⟩ := Prod.mk.inj (Except.ok.inj hr)
      have hInit : FrameInv h.objs.length h.autos.length h
          (h.allocAuto (newAutomaton .DFA)).2 :=
        (frame_allocAuto ⟨Nat.le_refl _, Nat.le_refl _,
          fun _ _ => rfl, fun _ _ => rfl⟩).1
      have hnd : h.autos.length ≤ (h.allocAuto (newAutomaton .DFA)).1 :=
        Nat.le_refl _
      obtain ⟨hIf1, hmapf⟩ := foldl_inv
        (cloneReachStep (h.allocAuto (newAutomaton .DFA)).1 s0)
        (fun p => FrameInv h.objs.length h.autos.length h p.1 ∧
          ∀ q ∈ p.2, h.objs.length ≤ q.2)
        (fun p old hp => frame_cloneReachStep hnd p old hp)
        (bfsReach h fuel [s0] [s0])
        ((h.allocAuto (newAutomaton .DFA)).2, ([] : List (Nat × Nat)))
        ⟨hInit, by simp⟩
      have hIf2 := foldl_inv
        (copyTransStep (h.allocAuto (newAutomaton .DFA)).1
          (List.foldl (cloneReachStep (h.allocAuto (newAutomaton .DFA)).1 s0)
            ((h.allocAuto (newAutomaton .DFA)).2, []) (bfsReach h fuel [s0] [s0])).2
          (bfsReach h fuel [s0] [s0]))
        (fun hh => FrameInv h.objs.length h.autos.length h hh)
        (fun hh old hI =>
          frame_copyTransStep hnd _ hmapf ho (bfsReach h fuel [s0] [s0]) hh
            old hI)
        (bfsReach h fuel [s0] [s0]) _ hIf1
      rw [← hh]
      exact ⟨hIf2, hrd ▸ hnd⟩

/-- One block-state creation step of `buildMinimalDFA` preserves the frame
invariant and the freshness of the block→state map. -/
theorem frame_minStateStep {n0 m0 : Nat} {h0 : Heap} {mr d : Nat}
    (hmr : m0 ≤ mr) (acc : Heap × List (Nat × Nat)) (pi : Nat × List Nat)
    (hp : FrameInv n0 m0 h0 acc.1 ∧ ∀ q ∈ acc.2, n0 ≤ q.2) :
    FrameInv n0 m0 h0 (minStateStep mr d acc pi).1 ∧
      ∀ q ∈ (minStateStep mr d acc pi).2, n0 ≤ q.2 := by
  obtain ⟨hI, hmap⟩ := hp
  obtain ⟨hIa, hnr⟩ := frame_createState
    (b := pi.2.any (fun r => (acc.1.getObj r).isAccepting)) hI hmr
  have hIb : FrameInv n0 m0 h0 (minStateCore mr acc pi) :=
    frame_setObj hIa hnr
  constructor
  · simp only [minStateStep]
    split
    · split
      · exact frame_setStart hIb hmr
      · exact hIb
    · exact hIb
  · simp only [minStateStep]
    intro q hq
    rcases List.mem_append.1 hq with hq | hq
    · exact hmap q hq
    · rw [List.mem_singleton.1 hq]
      exact hnr

/-- One block-transition step of `buildMinimalDFA` preserves the frame
invariant. -/
theorem frame_minTransStep {n0 m0 : Nat} {h0 : Heap} {mr d : Nat}
    (hmr : m0 ≤ mr) (stp p2s : List (Nat × Nat))
    (hp2s : ∀ q ∈ p2s, n0 ≤ q.2) (hdead : n0 ≤ deadRef)
    (hh : Heap) (pi : Nat × List Nat) (hI : FrameInv n0 m0 h0 hh) :
    FrameInv n0 m0 h0 (minTransStep mr d stp p2s hh pi) := by
  unfold minTransStep
  refine foldl_inv _ (fun hh => FrameInv n0 m0 h0 hh) ?_ _ hh hI
  intro hh c hI2
  split
  · exact hI2
  · refine frame_addTransition hI2 hmr ?_
    cases hq : assocGet p2s pi.1 with
    | none => simpa using hdead
    | some r =>
      simp only [Option.getD_some]
      exact hp2s _ (assocGet_mem _ _ _ hq)

/-- `buildMinimalDFA` writes only to fresh entries and returns the freshly
allocated automaton. -/
theorem frame_buildMinimal {n0 m0 : Nat} {h0 : Heap} (hh : Heap) (d : Nat)
    (parts : List (List Nat)) (stp : List (Nat × Nat))
    (hI : FrameInv n0 m0 h0 hh) (hdead : n0 ≤ deadRef) :
    FrameInv n0 m0 h0 (buildMinimalDFA hh d parts stp).1 ∧
      m0 ≤ (buildMinimalDFA hh d parts stp).2 := by
  have hmr : m0 ≤ (hh.allocAuto (newAutomaton .MinDFA)).1 := hI.2.1
  have hInit : FrameInv n0 m0 h0 (hh.allocAuto (newAutomaton .MinDFA)).2 :=
    (frame_allocAuto hI).1
  obtain ⟨hIf1, hmapf⟩ := foldl_inv
    (minStateStep (hh.allocAuto (newAutomaton .MinDFA)).1 d)
    (fun p => FrameInv n0 m0 h0 p.1 ∧ ∀ q ∈ p.2, n0 ≤ q.2)
    (fun p pi hp => frame_minStateStep hmr p pi hp)
    parts.enum
    ((hh.allocAuto (newAutomaton .MinDFA)).2, ([] : List (Nat × Nat)))
    ⟨hInit, by simp⟩
  have hIf2 := foldl_inv
    (minTransStep (hh.allocAuto (newAutomaton .MinDFA)).1 d stp
      (parts.enum.foldl
        (minStateStep (hh.allocAuto (newAutomaton .MinDFA)).1 d)
        ((hh.allocAuto (newAutomaton .MinDFA)).2, ([] : List (Nat × Nat)))).2)
    (fun hh => FrameInv n0 m0 h0 hh)
    (fun hh pi hI2 =>
      frame_minTransStep hmr stp _ hmapf hdead hh pi hI2)
    parts.enum _ hIf1
  exact ⟨hIf2, hmr⟩

/-- The minimizer mutates nothing pre-existing and returns a fresh
automaton, except that an all-reachable input with at most one state is
itself retagged and returned. -/
theorem frame_minimize (h : Heap) (a : Nat) (fuel : Nat)
    (ho : h.objs.length ≤ deadRef) :
    minFrame h a (minimize h a fuel) := by
  rcases hr : minimize h a fuel with e | ⟨h1, m, parts, stp⟩
  · simp [minFrame]
  · simp only [minFrame]
    simp only [minimize] at hr
    split at hr
    · cases hr
    · split at hr
      · cases hr
      · rename_i hrem1 hrd hrem
        by_cases hle : (hrem1.getAuto hrd).states.length ≤ 1
        · rw [if_pos hle] at hr
          simp only [Except.ok.injEq, Prod.mk.injEq] at hr
          obtain ⟨hh1, hm, hparts, hstp⟩ := hr
          subst hh1
          subst hm
          rcases frame_removeUnreachable h a fuel ho _ _ hrem with
            ⟨hsame, hsamer⟩ | ⟨hIfr, hge⟩
          · right
            subst hsame
            subst hsamer
            exact ⟨rfl, hle, rfl, rfl⟩
          · left
            have hfa := frame_setAuto (v := { hrem1.getAuto hrd with
              typ := AType.MinDFA }) hIfr hge
            exact ⟨⟨hfa.2.2.1, hfa.2.2.2⟩, hge⟩
        · rw [if_neg hle] at hr
          simp only [Except.ok.injEq, Prod.mk.injEq] at hr
          obtain ⟨hh1, hm, hparts, hstp⟩ := hr
          subst hh1
          subst hm
          left
          rcases frame_removeUnreachable h a fuel ho _ _ hrem with
            ⟨hsame, hsamer⟩ | ⟨hIfr, hge⟩
          · subst hsame
            have hInit : FrameInv hrem1.objs.length hrem1.autos.length
                hrem1 hrem1 :=
              ⟨Nat.le_refl _, Nat.le_refl _, fun _ _ => rfl, fun _ _ => rfl⟩
            obtain ⟨hIb, hmb⟩ := frame_buildMinimal hrem1 hrd _ _ hInit ho
            exact ⟨⟨hIb.2.2.1, hIb.2.2.2⟩, hmb⟩
          · obtain ⟨hIb, hmb⟩ := frame_buildMinimal hrem1 hrd _ _ hIfr ho
            exact ⟨⟨hIb.2.2.1, hIb.2.2.2⟩, hmb⟩

/-- C8 (amended): for every automaton (in a heap of fewer than `deadRef`
objects), the determinizer leaves every pre-existing state and automaton
unchanged and returns a freshly allocated automaton; the minimizer does the
same — except that an input whose reachability sweep covers its whole
states collection and which has at most one state is itself retagged
`MinDFA` (mutating only its kind tag) and returned. -/
theorem C8_stage_frame (h : Heap) (a : Nat) (fuel : Nat)
    (ho : h.objs.length ≤ deadRef) :
    dfaFreshFrame h (convertToDFA h a fuel) ∧
      minFrame h a (minimize h a fuel) :=
  ⟨frame_convertToDFA h a fuel ho, frame_minimize h a fuel ho⟩

/-- C8 witness: the amended frame statement evaluated on the concrete
one-state DFA. -/
theorem C8_stage_frame_witness :
    dfaFreshFrame oneStateDfaHeap (convertToDFA oneStateDfaHeap 0 16) ∧
      minFrame oneStateDfaHeap 0 (minimize oneStateDfaHeap 0 16) :=
  C8_stage_frame oneStateDfaHeap 0 16 (by decide)

/-- The Thompson operator test agrees with the parser's operator test. -/
theorem thIsOperator_eq (c : Char) : thIsOperator c = isOperator c := by
  unfold thIsOperator isOperator precedenceOf
  by_cases h1 : c = '|' <;> by_cases h2 : c = '.' <;> by_cases h3 : c = '+' <;>
    by_cases h4 : c = '*' <;> by_cases h5 : c = '?' <;>
    simp [h1, h2, h3, h4, h5]

/-- A binary operator is an operator. -/
theorem isBinaryOp_isOperator (c : Char) (hb : isBinaryOp c = true) :
    isOperator c = true := by
  unfold isBinaryOp at hb
  unfold isOperator precedenceOf
  rcases Bool.or_eq_true_iff.1 hb with h | h <;>
    simp [of_decide_eq_true h]

/-- `convert` on a single-operand regex succeeds with that operand as the
whole postfix form. -/
theorem convert_single (c : Char) (hop : isOperator c = false)
    (hnp : c ≠ '(') (hnq : c ≠ ')') :
    convert [c] = ⟨true, some [c], []⟩ := by
  have hb : isBinaryOp c = false := by
    cases hbc : isBinaryOp c
    · rfl
    · rw [isBinaryOp_isOperator c hbc] at hop
      cases hop
  unfold convert validate preprocess shuntingYardAlg
  simp [hop, hb, hnp, hnq, validateParens, validateConsec, preprocessGo,
    syGo, syFlush, isOperand]

/-- `basicSymbol` on the empty heap for a non-epsilon symbol. -/
theorem basicSymbol_empty (c : Char) (hne : c ≠ 'ε') :
    basicSymbol emptyHeap c =
      (⟨[⟨0, false, [(c, [1])], [], none⟩, ⟨1, true, [], [], none⟩],
        [⟨AType.NFA, [(0, 0), (1, 1)], [c], some 0, [1], 2, none⟩]⟩, 0) := by
  unfold basicSymbol autoAddTransition stAddTransition
  simp only [hne, if_false]
  rfl

/-- `buildNFA` on a single non-epsilon operand yields exactly the two-state
Thompson automaton. -/
theorem buildNFA_single (c : Char) (hop : isOperator c = false)
    (hne : c ≠ 'ε') :
    buildNFA emptyHeap [c] =
      .ok (⟨[⟨0, false, [(c, [1])], [], none⟩, ⟨1, true, [], [], none⟩],
            [⟨AType.NFA, [(0, 0), (1, 1)], [c], some 0, [1], 2, none⟩]⟩, 0) := by
  have hth : thIsOperator c = false := (thIsOperator_eq c).trans hop
  have hstep : buildNFAstep emptyHeap c [] =
      .ok ((basicSymbol emptyHeap c).1, [(basicSymbol emptyHeap c).2]) := by
    unfold buildNFAstep
    simp [hth]
  simp only [buildNFA, buildNFAgo, hstep, basicSymbol_empty c hne]

/-- The subset construction on the two-state Thompson automaton yields the
two-state DFA, for any fuel of at least 2. -/
theorem convertToDFA_single (c : Char) (hne : c ≠ 'ε') (k : Nat) :
    convertToDFA
      ⟨[⟨0, false, [(c, [1])], [], none⟩, ⟨1, true, [], [], none⟩],
       [⟨AType.NFA, [(0, 0), (1, 1)], [c], some 0, [1], 2, none⟩]⟩ 0 (k + 2) =
    .ok (⟨[⟨0, false, [(c, [1])], [], none⟩, ⟨1, true, [], [], none⟩,
           ⟨0, false, [(c, [3])], [], some [0]⟩, ⟨1, true, [], [], some [1]⟩],
          [⟨AType.NFA, [(0, 0), (1, 1)], [c], some 0, [1], 2, none⟩,
           ⟨AType.DFA, [(0, 2), (1, 3)], [c], some 2, [3], 2, some [1]⟩]⟩,
      1) := by
  simp [convertToDFA, scLoop, scSymStep, getOrCreateDFAState, stateSetKey,
    isAcceptingSetFrom, moveSet, getTransitions, epsilonClosure,
    epsClosureLoop, autoCreateState, autoSetStart, autoAddTransition,
    stAddTransition, autoAddState, Heap.getAuto, Heap.getObj, Heap.setAuto,
    Heap.setObj, Heap.allocAuto, Heap.allocObj, newAutomaton, assocGet,
    assocSet, pushNew, sortNat, insSorted, List.getD, hne]

/-- Minimizing the two-state single-symbol DFA yields the two-state MinDFA
(and the final two-block partition), for any fuel of at least 2. -/
theorem minimize_single (c : Char) (hne : c ≠ 'ε') (k : Nat) :
    minimize
      ⟨[⟨0, false, [(c, [1])], [], none⟩, ⟨1, true, [], [], none⟩,
        ⟨0, false, [(c, [3])], [], some [0]⟩, ⟨1, true, [], [], some [1]⟩],
       [⟨AType.NFA, [(0, 0), (1, 1)], [c], some 0, [1], 2, none⟩,
        ⟨AType.DFA, [(0, 2), (1, 3)], [c], some 2, [3], 2, some [1]⟩]⟩ 1
      (k + 2) =
    .ok (singleCharHeap c, 2, [[2], [3]], [(2, 0), (3, 1)]) := by
  simp [minimize, removeUnreachableStates, bfsReach, initPartitions,
    refineParts, splitStep, stpOf, buildMinimalDFA, minStateStep,
    minStateCore, minStateRef, minTransStep, getTransitions, autoCreateState,
    autoSetStart, autoAddTransition, stAddTransition, Heap.getAuto,
    Heap.getObj, Heap.setAuto, Heap.setObj, Heap.allocAuto, Heap.allocObj,
    newAutomaton, assocGet, assocSet, pushNew, List.getD, hne,
    List.enum, List.enumFrom, List.filter, singleCharHeap]

/-- The full pipeline on a single-operand regex `[c]` produces exactly
`singleCharHeap c` with the NFA at reference 0, the DFA at 1 and the
MinDFA at 2, for any fuel of at least 2. -/
theorem pipeAll_single (c : Char) (hop : isOperator c = false)
    (hne : c ≠ 'ε') (hnp : c ≠ '(') (hnq : c ≠ ')') (k : Nat) :
    pipeAll [c] (k + 2) = .ok (singleCharHeap c, 0, 1, 2) := by
  simp only [pipeAll, convert_single c hop hnp hnq,
    buildNFA_single c hop hne, convertToDFA_single c hne k,
    minimize_single c hne k]

/-- Every state object of the single-operand pipeline heap (including the
out-of-range default) has an empty epsilon-transition set. -/
theorem getObj_eps_single (c : Char) (r : Nat) :
    ((singleCharHeap c).getObj r).epsilonTransitions = [] := by
  match r with
  | 0 => rfl
  | 1 => rfl
  | 2 => rfl
  | 3 => rfl
  | 4 => rfl
  | 5 => rfl
  | n + 6 =>
    rw [getObj_out_of_range (singleCharHeap c) (n + 6) (by simp [singleCharHeap])]
    rfl

/-- The closure loop on an empty pending queue returns the closure. -/
theorem epsClosureLoop_nil (h : Heap) (fuel : Nat) (cl : List Nat) :
    epsClosureLoop h fuel cl [] = cl := by
  cases fuel <;> rfl

/-- In the single-operand pipeline heap every singleton epsilon closure is
itself, whatever the fuel. -/
theorem epsClosure_single (c : Char) (fuel r : Nat) :
    epsilonClosure (singleCharHeap c) fuel [r] = [r] := by
  cases fuel with
  | zero => rfl
  | succ n =>
    show epsClosureLoop (singleCharHeap c) (n + 1) [r] [r].reverse = [r]
    rw [List.reverse_singleton, epsClosureLoop]
    simp only [getObj_eps_single, List.foldl_nil]
    exact epsClosureLoop_nil _ _ _

/-- DFA step loop from a transition-free accepting state: exactly the empty
input is accepted. -/
theorem simDFA_sink (h : Heap) (t i : Nat) (w : List Char)
    (steps : List SimStep) (ht : (h.getObj t).transitions = [])
    (ha : (h.getObj t).isAccepting = true) :
    (simDFAgo h t w i steps).accepted = decide (w = []) := by
  cases w with
  | nil => simp [simDFAgo, ha]
  | cons d rest => simp [simDFAgo, getTransitions, ht, assocGet]

/-- DFA step loop from a non-accepting state whose only edge is `c` to a
transition-free accepting state: exactly the input `[c]` is accepted. -/
theorem simDFA_chain (h : Heap) (s t : Nat) (c : Char) (i : Nat)
    (w : List Char) (steps : List SimStep)
    (hs : (h.getObj s).transitions = [(c, [t])])
    (hsa : (h.getObj s).isAccepting = false)
    (ht : (h.getObj t).transitions = [])
    (ha : (h.getObj t).isAccepting = true) :
    (simDFAgo h s w i steps).accepted = decide (w = [c]) := by
  cases w with
  | nil => simp [simDFAgo, hsa]
  | cons d rest =>
    by_cases hd : d = c
    · subst hd
      simp only [simDFAgo, getTransitions, hs, assocGet, eq_self_iff_true,
        ite_true, Option.getD_some]
      rw [simDFA_sink h t (i + 1) rest _ ht ha]
      simp
    · have hcd : c ≠ d := fun hh => hd hh.symm
      simp [simDFAgo, getTransitions, hs, assocGet, hcd, hd]

/-- NFA frontier walk of the single-operand heap from the accepting sink
state: exactly the empty remainder is accepted. -/
theorem simNFA_sink_single (c : Char) (fuel i : Nat) (w : List Char)
    (steps : List SimStep) :
    (simNFAgo (singleCharHeap c) fuel [1] w i steps).accepted
      = decide (w = []) := by
  cases w with
  | nil => simp [simNFAgo, singleCharHeap, Heap.getObj, List.getD]
  | cons d rest =>
    simp [simNFAgo, moveSet, getTransitions, assocGet, singleCharHeap,
      Heap.getObj, List.getD]

/-- NFA frontier walk of the single-operand heap from the start state:
exactly the remainder `[c]` is accepted. -/
theorem simNFA_start_single (c : Char) (fuel i : Nat) (w : List Char)
    (steps : List SimStep) :
    (simNFAgo (singleCharHeap c) fuel [0] w i steps).accepted
      = decide (w = [c]) := by
  cases w with
  | nil => simp [simNFAgo, singleCharHeap, Heap.getObj, List.getD]
  | cons d rest =>
    by_cases hd : d = c
    · subst hd
      have hm : moveSet (singleCharHeap d) [0] d = [1] := by
        simp [moveSet, getTransitions, assocGet, singleCharHeap, Heap.getObj,
          List.getD, pushNew]
      simp only [simNFAgo, hm, epsClosure_single]
      rw [simNFA_sink_single d fuel (i + 1) rest _]
      simp
    · have hcd : c ≠ d := fun hh => hd hh.symm
      have hm : moveSet (singleCharHeap c) [0] d = [] := by
        simp [moveSet, getTransitions, assocGet, singleCharHeap, Heap.getObj,
          List.getD, hcd]
      simp [simNFAgo, hm, hd]

/-- `accepts` on the pipeline NFA of a single-operand regex: the verdict is
acceptance exactly of the one-letter word `[c]`. -/
theorem verdict_single_nfa (c : Char) (fuel : Nat) (w : List Char) :
    verdict (accepts (singleCharHeap c) 0 fuel w)
      = some (decide (w = [c])) := by
  have h0 : accepts (singleCharHeap c) 0 fuel w
      = .ok (simNFAgo (singleCharHeap c) fuel
          (epsilonClosure (singleCharHeap c) fuel [0]) w 1
          [⟨0, (epsilonClosure (singleCharHeap c) fuel [0]).map
              (fun r => ((singleCharHeap c).getObj r).id), none, w,
            .inicioClausura⟩]) := rfl
  rw [h0, epsClosure_single]
  show some ((simNFAgo (singleCharHeap c) fuel [0] w 1 _).accepted) = _
  rw [simNFA_start_single]

/-- `accepts` on the pipeline DFA of a single-operand regex: the verdict is
acceptance exactly of the one-letter word `[c]`. -/
theorem verdict_single_dfa (c : Char) (fuel : Nat) (w : List Char) :
    verdict (accepts (singleCharHeap c) 1 fuel w)
      = some (decide (w = [c])) := by
  show some ((simDFAgo (singleCharHeap c) 2 w 1 _).accepted) = _
  rw [simDFA_chain (singleCharHeap c) 2 3 c 1 w _ rfl rfl rfl rfl]

/-- `accepts` on the pipeline MinDFA of a single-operand regex: the verdict
is acceptance exactly of the one-letter word `[c]`. -/
theorem verdict_single_min (c : Char) (fuel : Nat) (w : List Char) :
    verdict (accepts (singleCharHeap c) 2 fuel w)
      = some (decide (w = [c])) := by
  show some ((simDFAgo (singleCharHeap c) 4 w 1 _).accepted) = _
  rw [simDFA_chain (singleCharHeap c) 4 5 c 1 w _ rfl rfl rfl rfl]

/-- C1 (amended): the pipeline equivalence does hold on single-operand
regexes.  For every character `c` that is neither an operator, a
parenthesis nor the epsilon marker, and every input word `w`, the three
pipeline automatons for the regex `[c]` all return the same verdict,
namely acceptance exactly of the word `[c]` itself (fuel at least 2). -/
theorem C1_single_operand_agreement (c : Char) (k : Nat) (w : List Char)
    (hop : isOperator c = false) (hne : c ≠ 'ε') (hnp : c ≠ '(')
    (hnq : c ≠ ')') :
    nfaVerdict [c] (k + 2) w = some (decide (w = [c])) ∧
    dfaVerdict [c] (k + 2) w = some (decide (w = [c])) ∧
    minVerdict [c] (k + 2) w = some (decide (w = [c])) := by
  refine ⟨?_, ?_, ?_⟩ <;>
    simp only [nfaVerdict, dfaVerdict, minVerdict,
      pipeAll_single c hop hne hnp hnq k, verdict_single_nfa,
      verdict_single_dfa, verdict_single_min]

/-- Witness for the amended C1 at the concrete regex "a" and input "a". -/
theorem C1_single_operand_agreement_witness :
    (isOperator 'a' = false ∧ 'a' ≠ 'ε' ∧ 'a' ≠ '(' ∧ 'a' ≠ ')') ∧
    (nfaVerdict ['a'] 2 ['a'] = some (decide (['a'] = ['a'])) ∧
     dfaVerdict ['a'] 2 ['a'] = some (decide (['a'] = ['a'])) ∧
     minVerdict ['a'] 2 ['a'] = some (decide (['a'] = ['a']))) :=
  ⟨⟨by decide, by decide, by decide, by decide⟩,
   C1_single_operand_agreement 'a' 0 ['a'] (by decide) (by decide)
     (by decide) (by decide)⟩
